import Mathlib

/-!
Verification of the bookmark-synchronization core of the sync-my-bookmarks
browser extension (src/syncer.ts, src/periodicSync.ts, and the background
flattener getAllBookmarks), as a shallow embedding in Lean.

The embedding models:
  - the tagged node record BookmarkNode (src/types.ts);
  - JavaScript Map semantics (insertion order, in-place value replacement);
  - JavaScript string truthiness as used by the source (empty string falsy);
  - the browser bookmark tree and the chrome.bookmarks calls the syncer
    issues (create, update, move, remove, removeTree), with Chrome-assigned
    fresh ids and per-call failure (a call on a missing node rejects, which
    the source catches);
  - the tree flatteners: getExistingChromeBookmarks (skips the three system
    root ids) and the background script getAllBookmarks (which does not);
  - firstSync (Mode A) and fullSync (Mode B), including their recursive
    ensureParentExists helpers, modelled with explicit fuel so that the
    unbounded recursion of the source on cyclic parent chains surfaces as a
    stackOverflow outcome for every fuel value;
  - the remote response envelope and the top-level try/catch of both sync
    entry points, and the periodic alarm listener's notification choice.

Every sync run is a pure function from (credential, response, chrome state)
to (new chrome state, list of issued browser calls), so the claims about
mutation traces are statements about that list.
-/

namespace SMB

/-- Node variant tag, discriminated by the explicit type field in the
source (src/types.ts). -/
inductive NodeType where
  | bookmark
  | folder
deriving DecidableEq

/-- The transport node record of src/types.ts. The children field of the
in-memory tree representation is modelled separately by BTree. -/
structure BookmarkNode where
  id : String
  title : String
  url : Option String := none
  parentId : Option String := none
  dateAdded : Option Int := none
  type : NodeType
deriving DecidableEq

/-- JavaScript truthiness of a string-or-undefined value: undefined and the
empty string are falsy. -/
def truthyS : Option String → Bool
  | none => false
  | some s => s != ""

/-- JavaScript s1 or-else s2 on strings: the empty string falls through to
the default. -/
def jsOr (s d : String) : String := if s = "" then d else s

/-- JavaScript or-else on a string-or-undefined value, as in the source
expressions of the form item.parentId or-else "1". -/
def jsOrO (o : Option String) (d : String) : String :=
  match o with
  | none => d
  | some s => if s = "" then d else s

/-- The sort key of the source comparator: dateAdded or-else 0. -/
def dateKey (o : Option Int) : Int := o.getD 0

/-- Membership test of the source expression that filters the ids "0", "1"
and "2" (the three fixed system roots). -/
def isSystemId (i : String) : Bool := i == "0" || i == "1" || i == "2"

/-- JavaScript Map, modelled as an association list in insertion order.
Map.set replaces the value of an existing key in place (keeping its
position) and appends a new key at the end, matching JS iteration order. -/
abbrev JsMap (α : Type) := List (String × α)

/-- Map.get: first (and, by the mapSet discipline, only) binding wins. -/
def mapGet {α : Type} (m : JsMap α) (k : String) : Option α :=
  match m with
  | [] => none
  | p :: ps => if p.1 == k then some p.2 else mapGet ps k

/-- Map.has. -/
def mapHas {α : Type} (m : JsMap α) (k : String) : Bool := (mapGet m k).isSome

/-- Map.set with JS semantics: in-place replacement or append. -/
def mapSet {α : Type} (m : JsMap α) (k : String) (v : α) : JsMap α :=
  match m with
  | [] => [(k, v)]
  | p :: ps => if p.1 == k then (k, v) :: ps else p :: mapSet ps k v

/-- Set.add on the processed-items set of ids. -/
def setAdd (s : List String) (x : String) : List String :=
  if s.contains x then s else s ++ [x]

/-- The browser bookmark tree node: id, title, url (present on bookmarks,
absent on folders), dateAdded, and child list. -/
inductive BTree where
  | node (id title : String) (url : Option String) (dateAdded : Option Int)
      (children : List BTree)

/-- Id of a tree node. -/
def BTree.nid : BTree → String
  | .node i _ _ _ _ => i

/-- Children of a tree node. -/
def BTree.nchildren : BTree → List BTree
  | .node _ _ _ _ cs => cs

mutual
/-- Whether some node of the tree has the given id. -/
def btHasId (i : String) : BTree → Bool
  | .node j _ _ _ cs => j == i || bfHasId i cs
def bfHasId (i : String) : List BTree → Bool
  | [] => false
  | t :: ts => btHasId i t || bfHasId i ts
end

mutual
/-- Append a child at the end of the child list of every node with the
given id (ids are unique in well-formed browser trees, so at most one). -/
def btAppendChild (pid : String) (c : BTree) : BTree → BTree
  | .node j t u d cs =>
    if j == pid then .node j t u d (cs ++ [c])
    else .node j t u d (bfAppendChild pid c cs)
def bfAppendChild (pid : String) (c : BTree) : List BTree → List BTree
  | [] => []
  | t :: ts => btAppendChild pid c t :: bfAppendChild pid c ts
end

mutual
/-- Detach the first node with the given id, returning it (with its
subtree) together with the tree it was removed from. -/
def btDetach (i : String) : BTree → Option (BTree × BTree)
  | .node j t u d cs =>
    match bfDetach i cs with
    | some (x, cs') => some (x, .node j t u d cs')
    | none => none
def bfDetach (i : String) : List BTree → Option (BTree × List BTree)
  | [] => none
  | t :: ts =>
    if t.nid == i then some (t, ts)
    else
      match btDetach i t with
      | some (x, t') => some (x, t' :: ts)
      | none =>
        match bfDetach i ts with
        | some (x, ts') => some (x, t :: ts')
        | none => none
end

mutual
/-- Overwrite the title of every node with the given id. -/
def btSetTitle (i title : String) : BTree → BTree
  | .node j t u d cs =>
    if j == i then .node j title u d (btSetTitleChildren i title cs)
    else .node j t u d (btSetTitleChildren i title cs)
def btSetTitleChildren (i title : String) : List BTree → List BTree
  | [] => []
  | t :: ts => btSetTitle i title t :: btSetTitleChildren i title ts
end

/-- The browser bookmark store: the root tree (id "0", whose children are
the fixed roots "1" and "2") and the fresh-id counter Chrome uses to name
newly created nodes. -/
structure Chrome where
  root : BTree
  nextId : Nat

/-- A browser profile with no user bookmarks: the umbrella root "0" with
the two empty fixed roots "1" and "2". -/
def initialChrome : Chrome :=
  { root := .node "0" "" none none
      [.node "1" "Bookmarks bar" none none [],
       .node "2" "Other bookmarks" none none []],
    nextId := 3 }

/-- chrome.bookmarks.create. Fails (the promise rejects, which the source
catches) when the requested parent does not exist; otherwise appends a new
childless node with a Chrome-assigned fresh id at the end of the parent's
children and returns the new id. -/
def chromeCreate (c : Chrome) (pid title : String) (url : Option String) :
    Option (String × Chrome) :=
  if btHasId pid c.root then
    let newId := "c" ++ toString c.nextId
    some (newId,
      { root := btAppendChild pid (.node newId title url none []) c.root,
        nextId := c.nextId + 1 })
  else none

/-- chrome.bookmarks.remove: fails on a missing node or a node that still
has children; otherwise deletes the node. -/
def chromeRemove (c : Chrome) (i : String) : Option Chrome :=
  match btDetach i c.root with
  | some (t, root') => if t.nchildren.isEmpty then some { c with root := root' } else none
  | none => none

/-- chrome.bookmarks.removeTree: fails on a missing node; otherwise deletes
the node together with its whole subtree. -/
def chromeRemoveTree (c : Chrome) (i : String) : Option Chrome :=
  match btDetach i c.root with
  | some (_, root') => some { c with root := root' }
  | none => none

/-- chrome.bookmarks.update of the title: fails on a missing node. -/
def chromeUpdate (c : Chrome) (i title : String) : Option Chrome :=
  if btHasId i c.root then some { c with root := btSetTitle i title c.root } else none

/-- chrome.bookmarks.move: fails when the node or the new parent is
missing (or the new parent sits inside the moved subtree); otherwise
re-appends the detached subtree under the new parent. -/
def chromeMove (c : Chrome) (i pid : String) : Option Chrome :=
  match btDetach i c.root with
  | some (t, root') =>
    if btHasId pid root' then some { c with root := btAppendChild pid t root' } else none
  | none => none

mutual
/-- The flattening traversal of getExistingChromeBookmarks (src/syncer.ts
lines 21 to 57): pre-order, skipping the three system ids as entries but
descending into their children; a truthy url makes a bookmark entry, any
other node makes a folder entry followed by its children. The parent
argument carries the id the browser would report as parentId. -/
def traverseNode (parent : Option String) : BTree → List BookmarkNode
  | .node i t u d cs =>
    if isSystemId i then traverseForest (some i) cs
    else if truthyS u then
      [{ id := i, title := t, url := u, parentId := parent, dateAdded := d,
         type := .bookmark }]
    else
      { id := i, title := t, url := none, parentId := parent, dateAdded := d,
        type := .folder } :: traverseForest (some i) cs
def traverseForest (parent : Option String) : List BTree → List BookmarkNode
  | [] => []
  | t :: ts => traverseNode parent t ++ traverseForest parent ts
end

/-- getExistingChromeBookmarks: flatten the full browser tree (the getTree
result is the one-element list holding the umbrella root). -/
def getExistingChromeBookmarks (c : Chrome) : List BookmarkNode :=
  traverseForest none [c.root]

mutual
/-- The flattening traversal of the background script getAllBookmarks: the
same shape but with no system-id skip, so the root containers themselves
become folder entries. -/
def gabNode (parent : Option String) : BTree → List BookmarkNode
  | .node i t u d cs =>
    if truthyS u then
      [{ id := i, title := t, url := u, parentId := parent, dateAdded := d,
         type := .bookmark }]
    else
      { id := i, title := t, url := none, parentId := parent, dateAdded := d,
        type := .folder } :: gabForest (some i) cs
def gabForest (parent : Option String) : List BTree → List BookmarkNode
  | [] => []
  | t :: ts => gabNode parent t ++ gabForest parent ts
end

/-- getAllBookmarks of the background script (list argument is the getTree
result). -/
def getAllBookmarks (treeNodes : List BTree) : List BookmarkNode :=
  gabForest none treeNodes

/-- Stable insertion of a node into a list already sorted by dateKey,
placing it before the first strictly later element (the V8 sort used by the
source is stable, and the comparator is dateAdded or-else 0). -/
def insertByDate (b : BookmarkNode) : List BookmarkNode → List BookmarkNode
  | [] => [b]
  | x :: xs =>
    if dateKey b.dateAdded ≤ dateKey x.dateAdded then b :: x :: xs
    else x :: insertByDate b xs

/-- The ascending dateAdded sort applied by both sync modes. -/
def sortByDate : List BookmarkNode → List BookmarkNode
  | [] => []
  | x :: xs => insertByDate x (sortByDate xs)

/-- One issued chrome.bookmarks call (or the final POST of the local
snapshot). A call is recorded when issued, whether or not it succeeds. -/
inductive Op where
  | create (parentId title : String) (url : Option String)
  | update (id title : String)
  | move (id parentId : String)
  | remove (id : String)
  | removeTree (id : String)
  | push
deriving DecidableEq

/-- The per-run mutable state of a reconciliation run: the browser store,
the trace of issued calls, the folder mapping and the processed-set. -/
structure RunSt where
  chrome : Chrome
  ops : List Op
  folderMapping : JsMap String
  processedItems : List String

/-- Issue chrome.bookmarks.create: always recorded; the state changes only
on success, and the new id is returned. -/
def doCreate (st : RunSt) (pid title : String) (url : Option String) :
    Option String × RunSt :=
  let st' := { st with ops := st.ops ++ [Op.create pid title url] }
  match chromeCreate st.chrome pid title url with
  | some (i, c') => (some i, { st' with chrome := c' })
  | none => (none, st')

/-- Issue chrome.bookmarks.remove. -/
def doRemove (st : RunSt) (i : String) : Bool × RunSt :=
  let st' := { st with ops := st.ops ++ [Op.remove i] }
  match chromeRemove st.chrome i with
  | some c' => (true, { st' with chrome := c' })
  | none => (false, st')

/-- Issue chrome.bookmarks.removeTree. -/
def doRemoveTree (st : RunSt) (i : String) : Bool × RunSt :=
  let st' := { st with ops := st.ops ++ [Op.removeTree i] }
  match chromeRemoveTree st.chrome i with
  | some c' => (true, { st' with chrome := c' })
  | none => (false, st')

/-- Issue chrome.bookmarks.update of the title. -/
def doUpdate (st : RunSt) (i title : String) : Bool × RunSt :=
  let st' := { st with ops := st.ops ++ [Op.update i title] }
  match chromeUpdate st.chrome i title with
  | some c' => (true, { st' with chrome := c' })
  | none => (false, st')

/-- Issue chrome.bookmarks.move. -/
def doMove (st : RunSt) (i pid : String) : Bool × RunSt :=
  let st' := { st with ops := st.ops ++ [Op.move i pid] }
  match chromeMove st.chrome i pid with
  | some c' => (true, { st' with chrome := c' })
  | none => (false, st')

/-- The GET response of the remote collection. ok is the HTTP 2xx flag;
body models response.json(): none when the body is not JSON (json()
rejects), some none when the decoded envelope has no bookmarks field, and
some (some l) when it carries the node list l. -/
structure ApiResponse where
  ok : Bool
  body : Option (Option (List BookmarkNode))

/-- The node list the source recovers from a decoded response, via the
expression result.bookmarks or-else the empty list. -/
def respBookmarks (resp : ApiResponse) : List BookmarkNode :=
  match resp.body with
  | some (some l) => l
  | _ => []

/-- The system-root filter applied to the remote list in both modes. -/
def filterSystem (l : List BookmarkNode) : List BookmarkNode :=
  l.filter (fun n => !(isSystemId n.id))

/-- The id-to-node map of the remote list (nodeMap in the source). -/
def buildNodeMap (l : List BookmarkNode) : JsMap BookmarkNode :=
  l.foldl (fun m n => mapSet m n.id n) []

/-- The url-keyed bookmark map built in fullSync (both for the remote list
and for the local snapshot); nodes without a truthy url are skipped. -/
def buildUrlMap (l : List BookmarkNode) : JsMap BookmarkNode :=
  l.foldl
    (fun m b =>
      if b.type == NodeType.bookmark && truthyS b.url then mapSet m (b.url.getD "") b
      else m)
    []

/-- The id-keyed folder map built in fullSync. -/
def buildFolderMap (l : List BookmarkNode) : JsMap BookmarkNode :=
  l.foldl (fun m b => if b.type == NodeType.folder then mapSet m b.id b else m) []

/-- The folder mapping seeded with the two fixed roots mapped to
themselves. -/
def baseFolderMapping : JsMap String := [("1", "1"), ("2", "2")]

/-- The parent-resolution expression used when an item is created:
folderMapping.get(item.parentId or-else "1") or-else "1". -/
def resolveParentChromeId (fm : JsMap String) (pid : Option String) : String :=
  jsOrO (mapGet fm (jsOrO pid "1")) "1"

/-- Outcome of a call of ensureParentExists: either the boolean the source
returns, or stackOverflow, marking that the recursion of the source would
not have returned within the given fuel (on a cyclic parent chain it never
returns; the engine then raises a RangeError, which the per-item catch of
the caller swallows). -/
inductive EResult where
  | ok (canCreate : Bool)
  | stackOverflow
deriving DecidableEq

/-- ensureParentExists of firstSync (src/syncer.ts lines 151 to 208):
resolve the parent chain of an item, creating missing remote folders
locally, recording them in the folder mapping and the processed-set. -/
def ensureParentExistsFirst (nodeMap : JsMap BookmarkNode) :
    Nat → BookmarkNode → RunSt → EResult × RunSt
  | 0, _, st => (.stackOverflow, st)
  | fuel + 1, item, st =>
    match item.parentId with
    | none => (.ok true, st)
    | some pid =>
      if pid == "" || pid == "1" || pid == "2" then (.ok true, st)
      else if mapHas st.folderMapping pid then (.ok true, st)
      else
        match mapGet nodeMap pid with
        | none => (.ok true, st)
        | some parentFolder =>
          if parentFolder.type != NodeType.folder then (.ok true, st)
          else if st.processedItems.contains pid then (.ok true, st)
          else
            match ensureParentExistsFirst nodeMap fuel parentFolder st with
            | (.stackOverflow, st1) => (.stackOverflow, st1)
            | (.ok false, st1) => (.ok false, st1)
            | (.ok true, st1) =>
              let gp := jsOrO (mapGet st1.folderMapping (jsOrO parentFolder.parentId "1")) "1"
              match doCreate st1 gp (jsOr parentFolder.title "Unnamed Folder") none with
              | (some cid, st2) =>
                (.ok true,
                  { st2 with
                    folderMapping := mapSet st2.folderMapping parentFolder.id cid,
                    processedItems := setAdd st2.processedItems parentFolder.id })
              | (none, st2) => (.ok false, st2)

/-- ensureParentExists of fullSync (src/syncer.ts lines 404 to 467): as in
firstSync, but a folder with the same title under the same resolved parent
in the pre-run local snapshot is reused instead of created. -/
def ensureParentExistsFull (nodeMap : JsMap BookmarkNode)
    (existingBookmarks : List BookmarkNode) :
    Nat → BookmarkNode → RunSt → EResult × RunSt
  | 0, _, st => (.stackOverflow, st)
  | fuel + 1, item, st =>
    match item.parentId with
    | none => (.ok true, st)
    | some pid =>
      if pid == "" || pid == "1" || pid == "2" then (.ok true, st)
      else if mapHas st.folderMapping pid then (.ok true, st)
      else
        match mapGet nodeMap pid with
        | none => (.ok true, st)
        | some parentFolder =>
          if parentFolder.type != NodeType.folder then (.ok true, st)
          else if st.processedItems.contains pid then (.ok true, st)
          else
            match ensureParentExistsFull nodeMap existingBookmarks fuel parentFolder st with
            | (.stackOverflow, st1) => (.stackOverflow, st1)
            | (.ok false, st1) => (.ok false, st1)
            | (.ok true, st1) =>
              let gp := jsOrO (mapGet st1.folderMapping (jsOrO parentFolder.parentId "1")) "1"
              match existingBookmarks.find? (fun b =>
                  b.type == NodeType.folder &&
                  b.title == jsOr parentFolder.title "Unnamed Folder" &&
                  b.parentId == some gp) with
              | some f =>
                (.ok true,
                  { st1 with
                    folderMapping := mapSet st1.folderMapping parentFolder.id f.id,
                    processedItems := setAdd st1.processedItems parentFolder.id })
              | none =>
                match doCreate st1 gp (jsOr parentFolder.title "Unnamed Folder") none with
                | (some cid, st2) =>
                  (.ok true,
                    { st2 with
                      folderMapping := mapSet st2.folderMapping parentFolder.id cid,
                      processedItems := setAdd st2.processedItems parentFolder.id })
                | (none, st2) => (.ok false, st2)

/-- The distinct local bookmark urls of firstSync step 1 (existingUrls):
urls of local entries that are bookmarks with a truthy url. -/
def existingUrlsOf (c : Chrome) : List String :=
  ((getExistingChromeBookmarks c).filter
      (fun b => b.type == NodeType.bookmark && truthyS b.url)).map
    (fun b => b.url.getD "")

/-- firstSync step 4: the remote bookmarks to append in the merge branch,
filtered by a truthy url and by a url not already present locally. -/
def bookmarksToAdd (c : Chrome) (filtered : List BookmarkNode) : List BookmarkNode :=
  filtered.filter (fun b =>
    b.type == NodeType.bookmark && truthyS b.url &&
      !((existingUrlsOf c).contains (b.url.getD "")))

/-- One iteration of the chronological creation loop of firstSync
(src/syncer.ts lines 211 to 250). A stackOverflow of the parent resolution
or a failed create is swallowed by the per-item catch, skipping that
item. -/
def firstSyncItem (nodeMap : JsMap BookmarkNode) (fuel : Nat) (st : RunSt)
    (item : BookmarkNode) : RunSt :=
  match ensureParentExistsFirst nodeMap fuel item st with
  | (.stackOverflow, st1) => st1
  | (.ok false, st1) => st1
  | (.ok true, st1) =>
    let parentChromeId := resolveParentChromeId st1.folderMapping item.parentId
    match item.type with
    | .folder =>
      match doCreate st1 parentChromeId (jsOr item.title "Unnamed Folder") none with
      | (some cid, st2) =>
        { st2 with
          folderMapping := mapSet st2.folderMapping item.id cid,
          processedItems := setAdd st2.processedItems item.id }
      | (none, st2) => st2
    | .bookmark =>
      if truthyS item.url then
        match doCreate st1 parentChromeId (jsOr item.title "") item.url with
        | (some _, st2) => { st2 with processedItems := setAdd st2.processedItems item.id }
        | (none, st2) => st2
      else st1

/-- One iteration of the merge branch of firstSync (src/syncer.ts lines 273
to 286): create the bookmark under the first fixed root. -/
def firstSyncMergeItem (st : RunSt) (b : BookmarkNode) : RunSt :=
  (doCreate st "1" (jsOr b.title "") b.url).2

/-- The final push of firstSync (syncBookmarksToApi): checks the credential
again and POSTs the current local snapshot; a failing POST is caught
internally and changes nothing locally. -/
def syncBookmarksToApi (tok : Option String) (st : RunSt) : RunSt :=
  if truthyS tok then { st with ops := st.ops ++ [Op.push] } else st

/-- The body of firstSync (the try block, src/syncer.ts lines 93 to 290).
An error value is an exception reaching the top-level catch; the only such
point is a response body that fails to decode (firstSync never checks
response.ok). A missing credential is an early return, not an exception. -/
def firstSyncBody (tok : Option String) (resp : ApiResponse) (c : Chrome) :
    Except String (Chrome × List Op) :=
  if !truthyS tok then .ok (c, [])
  else
    match resp.body with
    | none => .error "response.json() rejected"
    | some ob =>
      let apiBookmarks := ob.getD []
      let filtered := filterSystem apiBookmarks
      let st0 : RunSt := ⟨c, [], baseFolderMapping, []⟩
      let st1 :=
        if (existingUrlsOf c).isEmpty then
          let nodeMap := buildNodeMap filtered
          (sortByDate filtered).foldl (firstSyncItem nodeMap (filtered.length + 2)) st0
        else
          (sortByDate (bookmarksToAdd c filtered)).foldl firstSyncMergeItem st0
      let st2 := syncBookmarksToApi tok st1
      .ok (st2.chrome, st2.ops)

/-- firstSync as the JS promise of the exported async function: the body
wrapped in the top-level try/catch, which only logs, so a body exception
still fulfills the promise with the state reached before the throw (no
mutation precedes the only throw point). -/
def firstSyncPromise (tok : Option String) (resp : ApiResponse) (c : Chrome) :
    Except String (Chrome × List Op) :=
  match firstSyncBody tok resp c with
  | .ok r => .ok r
  | .error _ => .ok (c, [])

/-- The resulting local state and issued-call trace of a firstSync run. -/
def firstSync (tok : Option String) (resp : ApiResponse) (c : Chrome) :
    Chrome × List Op :=
  match firstSyncPromise tok resp c with
  | .ok r => r
  | .error _ => (c, [])

/-- fullSync step 4 (src/syncer.ts lines 357 to 369): remove every local
bookmark whose url key is absent from the remote url map, iterating the
local url map in insertion order. -/
def removeBookmarksPass (apiBookmarksByUrl existingBookmarksByUrl : JsMap BookmarkNode)
    (st : RunSt) : RunSt :=
  existingBookmarksByUrl.foldl
    (fun st p => if mapHas apiBookmarksByUrl p.1 then st else (doRemove st p.2.id).2) st

/-- fullSync step 5 (src/syncer.ts lines 371 to 383): remove (with its
subtree) every local folder whose id is absent from the remote folder
map. -/
def removeFoldersPass (apiFoldersById existingFoldersById : JsMap BookmarkNode)
    (st : RunSt) : RunSt :=
  existingFoldersById.foldl
    (fun st p => if mapHas apiFoldersById p.1 then st else (doRemoveTree st p.2.id).2) st

/-- One iteration of the creation/update loop of fullSync (src/syncer.ts
lines 470 to 561). existingBookmarks is the pre-run snapshot (stale during
the loop); existingBookmarksByUrl is the url map derived from it. -/
def fullSyncItem (nodeMap : JsMap BookmarkNode)
    (existingBookmarks : List BookmarkNode)
    (existingBookmarksByUrl : JsMap BookmarkNode) (fuel : Nat) (st : RunSt)
    (apiItem : BookmarkNode) : RunSt :=
  match ensureParentExistsFull nodeMap existingBookmarks fuel apiItem st with
  | (.stackOverflow, st1) => st1
  | (.ok false, st1) => st1
  | (.ok true, st1) =>
    match apiItem.type with
    | .folder =>
      let parentChromeId := resolveParentChromeId st1.folderMapping apiItem.parentId
      match existingBookmarks.find? (fun b =>
          b.type == NodeType.folder &&
          b.title == jsOr apiItem.title "Unnamed Folder" &&
          b.parentId == some parentChromeId) with
      | none =>
        match doCreate st1 parentChromeId (jsOr apiItem.title "Unnamed Folder") none with
        | (some cid, st2) =>
          { st2 with
            folderMapping := mapSet st2.folderMapping apiItem.id cid,
            processedItems := setAdd st2.processedItems apiItem.id }
        | (none, st2) => st2
      | some f =>
        { st1 with
          folderMapping := mapSet st1.folderMapping apiItem.id f.id,
          processedItems := setAdd st1.processedItems apiItem.id }
    | .bookmark =>
      if truthyS apiItem.url then
        let u := apiItem.url.getD ""
        let existingBookmark := mapGet existingBookmarksByUrl u
        let parentChromeId := resolveParentChromeId st1.folderMapping apiItem.parentId
        match existingBookmark with
        | some eb =>
          if eb.title != jsOr apiItem.title "" || eb.parentId != some parentChromeId then
            match doUpdate st1 eb.id (jsOr apiItem.title "") with
            | (true, st2) =>
              if eb.parentId != some parentChromeId then (doMove st2 eb.id parentChromeId).2
              else st2
            | (false, st2) => st2
          else st1
        | none => (doCreate st1 parentChromeId (jsOr apiItem.title "") apiItem.url).2
      else st1

/-- The body of fullSync (the try block, src/syncer.ts lines 297 to 563).
The exceptions reaching the top-level catch are a non-2xx response (the
explicit throw) and an undecodable body; both precede every mutation. -/
def fullSyncBody (tok : Option String) (resp : ApiResponse) (c : Chrome) :
    Except String (Chrome × List Op) :=
  let existingBookmarks := getExistingChromeBookmarks c
  if !truthyS tok then .ok (c, [])
  else if !resp.ok then .error "HTTP error"
  else
    match resp.body with
    | none => .error "response.json() rejected"
    | some ob =>
      let apiBookmarks := ob.getD []
      let filtered := filterSystem apiBookmarks
      if filtered.isEmpty then .ok (c, [])
      else
        let apiBookmarksByUrl := buildUrlMap filtered
        let apiFoldersById := buildFolderMap filtered
        let existingBookmarksByUrl := buildUrlMap existingBookmarks
        let existingFoldersById := buildFolderMap existingBookmarks
        let st0 : RunSt := ⟨c, [], baseFolderMapping, []⟩
        let st1 := removeBookmarksPass apiBookmarksByUrl existingBookmarksByUrl st0
        let st2 := removeFoldersPass apiFoldersById existingFoldersById st1
        let nodeMap := buildNodeMap filtered
        let st3 := (sortByDate filtered).foldl
          (fullSyncItem nodeMap existingBookmarks existingBookmarksByUrl
            (filtered.length + 2)) st2
        .ok (st3.chrome, st3.ops)

/-- fullSync as the JS promise of the exported async function: the body
wrapped in the top-level try/catch; both throw points precede every
mutation, so the catch leaves the state untouched. -/
def fullSyncPromise (tok : Option String) (resp : ApiResponse) (c : Chrome) :
    Except String (Chrome × List Op) :=
  match fullSyncBody tok resp c with
  | .ok r => .ok r
  | .error _ => .ok (c, [])

/-- The resulting local state and issued-call trace of a fullSync run. -/
def fullSync (tok : Option String) (resp : ApiResponse) (c : Chrome) :
    Chrome × List Op :=
  match fullSyncPromise tok resp c with
  | .ok r => r
  | .error _ => (c, [])

/-- The periodic alarm listener of src/periodicSync.ts (lines 48 to 68):
on the sync alarm it awaits fullSync and shows the success notification;
the catch branch showing the failure notification fires only if the
awaited promise rejects. -/
def onAlarm (alarmName : String) (tok : Option String) (resp : ApiResponse)
    (c : Chrome) : Option String :=
  if alarmName == "periodicFullSync" then
    match fullSyncPromise tok resp c with
    | .ok _ => some "Bookmarks Synced"
    | .error _ => some "Sync Error"
  else none

/-! Concrete inputs used by counterexamples and witnesses. -/

/-- Shorthand for a concrete remote bookmark node. -/
def mkBm (i u ttl : String) (p : Option String) (d : Int) : BookmarkNode :=
  { id := i, title := ttl, url := some u, parentId := p, dateAdded := some d,
    type := .bookmark }

/-- Shorthand for a concrete remote folder node. -/
def mkFo (i ttl : String) (p : Option String) (d : Int) : BookmarkNode :=
  { id := i, title := ttl, url := none, parentId := p, dateAdded := some d,
    type := .folder }

/-! Basic lemmas about the JS map and list helpers. -/

theorem mapGet_mapSet {α : Type} (m : JsMap α) (k k' : String) (v : α) :
    mapGet (mapSet m k v) k' = if k = k' then some v else mapGet m k' := by
  induction m with
  | nil => simp [mapSet, mapGet, beq_iff_eq]
  | cons p ps ih =>
    obtain ⟨a, b⟩ := p
    simp only [mapSet, mapGet, beq_iff_eq]
    by_cases h1 : a = k
    · by_cases h2 : k = k'
      · simp [h1, h2, mapGet, beq_iff_eq]
      · have hp : ¬ (a = k') := fun h => h2 ((h1.symm.trans h))
        simp [h1, h2, hp, mapGet, beq_iff_eq]
    · by_cases h2 : a = k'
      · have hk : ¬ (k = k') := fun h => h1 (h ▸ h2)
        have hk' : ¬ (k' = k) := fun h => hk h.symm
        simp [h1, h2, hk, hk', mapGet, beq_iff_eq]
      · simp [h1, h2, mapGet, beq_iff_eq, ih]

theorem resolveParentChromeId_base (p : Option String) :
    resolveParentChromeId baseFolderMapping p = if jsOrO p "1" = "2" then "2" else "1" := by
  unfold resolveParentChromeId
  generalize jsOrO p "1" = q
  by_cases h1 : q = "1"
  · subst h1
    decide
  · by_cases h2 : q = "2"
    · subst h2
      decide
    · have hm : mapGet baseFolderMapping q = none := by
        have e1 : (("1" : String) == q) = false := beq_eq_false_iff_ne.mpr (fun h => h1 h.symm)
        have e2 : (("2" : String) == q) = false := beq_eq_false_iff_ne.mpr (fun h => h2 h.symm)
        simp [baseFolderMapping, mapGet, e1, e2]
      rw [hm]
      simp [jsOrO, h2]

theorem resolveParentChromeId_base_cases (p : Option String) :
    resolveParentChromeId baseFolderMapping p = "1" ∨
      resolveParentChromeId baseFolderMapping p = "2" := by
  rw [resolveParentChromeId_base]
  by_cases h : jsOrO p "1" = "2" <;> simp [h]

theorem foldl_fixed {α β : Type} (f : β → α → β) (l : List α) (b : β)
    (h : ∀ a ∈ l, f b a = b) : l.foldl f b = b := by
  induction l with
  | nil => rfl
  | cons x xs ih =>
    rw [List.foldl_cons, h x (by simp)]
    exact ih (fun a ha => h a (by simp [ha]))

/-! Claims C6, C9 and C10: top-of-run error handling. -/

/-- A non-2xx response whose JSON body still carries a bookmarks list, as
an error-shaped reply a server might produce. -/
def c6Remote : List BookmarkNode := [mkBm "r1" "https://err.test" "E" (some "1") 1]

/-- The non-2xx response used against claim C6. -/
def c6Resp : ApiResponse := { ok := false, body := some (some c6Remote) }

/-- C6 counterexample: firstSync never checks response.ok, so with a
credential present and a non-2xx response whose body decodes to a bookmark
list, the run does not abort at the fetch: it creates the bookmark carried
by the error-shaped response and still issues the final push. This
contradicts the claim that a non-2xx GET aborts the run before any local
mutation in both modes. -/
theorem C6_counterexample :
    (firstSync (some "token") c6Resp initialChrome).2 =
      [Op.create "1" "E" (some "https://err.test"), Op.push] := by rfl

/-- C6 amended: a missing credential aborts both runs with no mutation and
no push; a non-2xx response aborts fullSync with no mutation; but firstSync
ignores response.ok entirely: with a credential and a decodable body with
no bookmarks field, the non-2xx run continues, applies no local mutation
(the recovered list is empty) and still pushes the local snapshot. -/
theorem C6_amended :
    (∀ resp c, firstSync none resp c = (c, [])) ∧
    (∀ resp c, fullSync none resp c = (c, [])) ∧
    (∀ tok resp c, resp.ok = false → fullSync tok resp c = (c, [])) ∧
    (∀ tok c, truthyS tok = true →
      firstSync tok { ok := false, body := some none } c = (c, [Op.push])) := by
  refine ⟨?_, ?_, ?_, ?_⟩
  · intro resp c
    rfl
  · intro resp c
    rfl
  · intro tok resp c h
    unfold fullSync fullSyncPromise fullSyncBody
    cases htok : truthyS tok
    · simp
    · simp [h]
  · intro tok c h
    unfold firstSync firstSyncPromise firstSyncBody
    simp only [h, Bool.not_true, Bool.false_eq_true, if_false]
    by_cases he : (existingUrlsOf c).isEmpty
    · simp [he, filterSystem, sortByDate, syncBookmarksToApi, h]
    · simp [he, filterSystem, bookmarksToAdd, sortByDate, syncBookmarksToApi, h]

/-- C6 witness: the amended theorem applied to a present credential. -/
theorem C6_witness :
    truthyS (some "token") = true ∧
    firstSync (some "token") { ok := false, body := some none } initialChrome =
      (initialChrome, [Op.push]) :=
  ⟨rfl, C6_amended.2.2.2 (some "token") initialChrome rfl⟩

/-- C9: a remote collection that is empty after the system-id filter makes
fullSync return before the deletion pass, leaving the local tree untouched
and issuing no browser call; an empty remote set never deletes local
bookmarks. -/
theorem C9_theorem (tok : Option String) (c : Chrome) (ok : Bool)
    (R : List BookmarkNode) (h : ∀ r ∈ R, isSystemId r.id = true) :
    fullSync tok { ok := ok, body := some (some R) } c = (c, []) := by
  have hf : filterSystem R = [] := by
    simp only [filterSystem, List.filter_eq_nil_iff]
    intro a ha
    simp [h a ha]
  unfold fullSync fullSyncPromise fullSyncBody
  cases htok : truthyS tok
  · simp
  · cases ok
    · simp
    · simp [hf]

/-- C9 witness: a remote set holding only the three system roots. -/
theorem C9_witness :
    (∀ r ∈ [mkFo "0" "root" none 0, mkFo "1" "bar" (some "0") 0,
        mkFo "2" "other" (some "0") 0], isSystemId r.id = true) ∧
    fullSync (some "token")
      { ok := true,
        body := some (some [mkFo "0" "root" none 0, mkFo "1" "bar" (some "0") 0,
          mkFo "2" "other" (some "0") 0]) } initialChrome = (initialChrome, []) :=
  ⟨by decide, C9_theorem (some "token") initialChrome true _ (by decide)⟩

/-- C10: both sync entry points wrap their whole body in a try/catch that
only logs, so the promise they return always fulfills (every throw point
precedes any mutation, and per-item failures are caught inside the loops);
consequently the periodic alarm listener always reaches its success
notification and its catch branch (the failure notification) is
unreachable through a fullSync error. -/
theorem C10_theorem (tok : Option String) (resp : ApiResponse) (c : Chrome) :
    firstSyncPromise tok resp c = Except.ok (firstSync tok resp c) ∧
    fullSyncPromise tok resp c = Except.ok (fullSync tok resp c) ∧
    onAlarm "periodicFullSync" tok resp c = some "Bookmarks Synced" := by
  refine ⟨?_, ?_, ?_⟩
  · unfold firstSync firstSyncPromise
    cases h : firstSyncBody tok resp c <;> simp
  · unfold fullSync fullSyncPromise
    cases h : fullSyncBody tok resp c <;> simp
  · unfold onAlarm fullSyncPromise
    cases h : fullSyncBody tok resp c <;> simp

/-! Claim C3: termination of the recursive parent resolution. -/

/-- A remote folder whose parentId points at itself: the smallest cyclic
parent chain. -/
def cycFolder : BookmarkNode := mkFo "A" "Loop" (some "A") 1

/-- A remote bookmark whose parent is the cyclic folder. -/
def cycChild : BookmarkNode := mkBm "b" "https://cyc.test" "B" (some "A") 2

/-- The node map of the cyclic remote set. -/
def cycNodeMap : JsMap BookmarkNode := buildNodeMap [cycFolder, cycChild]

/-- The run state at the start of a run from an empty profile. -/
def initialRunSt : RunSt := ⟨initialChrome, [], baseFolderMapping, []⟩

theorem ensureFirst_cyc_diverges (n : Nat) (st : RunSt)
    (hm : mapHas st.folderMapping "A" = false)
    (hp : st.processedItems.contains "A" = false) :
    ensureParentExistsFirst cycNodeMap n cycFolder st = (.stackOverflow, st) := by
  induction n with
  | zero => rfl
  | succ n ih =>
    have hget : mapGet cycNodeMap "A" = some cycFolder := by rfl
    simp only [ensureParentExistsFirst, cycFolder, mkFo, hm, hp, hget]
    have ih' : ensureParentExistsFirst cycNodeMap n
        { id := "A", title := "Loop", url := none, parentId := some "A",
          dateAdded := some 1, type := NodeType.folder } st =
        (EResult.stackOverflow, st) := ih
    simp [ih']

/-- C3 counterexample: on the remote set whose folder chain is the self
cycle, the parent resolution of the bookmark never returns, for any
amount of fuel (each extra unit of fuel only takes the recursion one frame
deeper); in the engine this surfaces as a RangeError, not as the fixed-root
default the claim describes. -/
theorem C3_counterexample :
    ¬ ∃ (n : Nat) (b : Bool),
      (ensureParentExistsFirst cycNodeMap n cycChild initialRunSt).1 = EResult.ok b := by
  rintro ⟨n, b, h⟩
  cases n with
  | zero => exact absurd h (by simp [ensureParentExistsFirst])
  | succ n =>
    have hd := ensureFirst_cyc_diverges n initialRunSt rfl rfl
    have : (ensureParentExistsFirst cycNodeMap (n + 1) cycChild initialRunSt).1 =
        EResult.stackOverflow := by
      have hd' : ensureParentExistsFirst cycNodeMap n
          { id := "A", title := "Loop", url := none, parentId := some "A",
            dateAdded := some 1, type := NodeType.folder } initialRunSt =
          (EResult.stackOverflow, initialRunSt) := hd
      simp only [ensureParentExistsFirst, cycChild, mkBm,
        show mapGet cycNodeMap "A" = some cycFolder from rfl, cycFolder, mkFo]
      have hb : mapHas baseFolderMapping "A" = false := by decide
      have hd2 : ensureParentExistsFirst cycNodeMap n
          { id := "A", title := "Loop", url := none, parentId := some "A",
            dateAdded := some 1, type := NodeType.folder }
          { chrome := initialChrome, ops := [], folderMapping := baseFolderMapping,
            processedItems := [] } =
          (EResult.stackOverflow,
            { chrome := initialChrome, ops := [], folderMapping := baseFolderMapping,
              processedItems := [] }) := hd'
      simp [initialRunSt, hb, hd2]
    rw [this] at h
    exact absurd h (by simp)

/-- The finite stopping witness for a parent chain: the chain of folder
nodes the recursion of ensureParentExists walks from an item before a
stopping condition that is independent of the run state (root parent,
missing node, or non-folder node) is reached. Cyclic chains have no such
witness. -/
def parentChain (nodeMap : JsMap BookmarkNode) : BookmarkNode → List BookmarkNode → Prop
  | item, [] =>
    match item.parentId with
    | none => True
    | some pid =>
      pid = "" ∨ pid = "1" ∨ pid = "2" ∨ mapGet nodeMap pid = none ∨
        ∀ pf, mapGet nodeMap pid = some pf → pf.type ≠ NodeType.folder
  | item, pf :: rest =>
    ∃ pid, item.parentId = some pid ∧ pid ≠ "" ∧ pid ≠ "1" ∧ pid ≠ "2" ∧
      mapGet nodeMap pid = some pf ∧ pf.type = NodeType.folder ∧
      parentChain nodeMap pf rest

theorem ensure_nonfolder_parent (nm : JsMap BookmarkNode) (ex : List BookmarkNode)
    (st : RunSt) (item : BookmarkNode) (pid : String) (fuel : Nat)
    (hip : item.parentId = some pid) (h0 : pid ≠ "") (h1 : pid ≠ "1") (h2 : pid ≠ "2")
    (hm : mapHas st.folderMapping pid = false)
    (hn : mapGet nm pid = none ∨
      ∃ pf, mapGet nm pid = some pf ∧ pf.type ≠ NodeType.folder) :
    ensureParentExistsFirst nm (fuel + 1) item st = (.ok true, st) ∧
    ensureParentExistsFull nm ex (fuel + 1) item st = (.ok true, st) ∧
    resolveParentChromeId st.folderMapping item.parentId = "1" := by
  have hc : (pid == "" || pid == "1" || pid == "2") = false := by
    simp [h0, h1, h2]
  have hres : resolveParentChromeId st.folderMapping item.parentId = "1" := by
    unfold resolveParentChromeId
    rw [hip]
    have hj : jsOrO (some pid) "1" = pid := by simp [jsOrO, h0]
    rw [hj]
    cases hq : mapGet st.folderMapping pid with
    | none => rfl
    | some v => rw [mapHas, hq] at hm; simp at hm
  refine ⟨?_, ?_, hres⟩ <;>
  · simp only [ensureParentExistsFirst, ensureParentExistsFull, hip, hc, hm]
    rcases hn with hg | ⟨pf, hg, hpf⟩
    · simp [hg]
    · have ht : (pf.type != NodeType.folder) = true := by simp [hpf]
      simp [hg, ht]

theorem ensureFirst_total (nm : JsMap BookmarkNode) :
    ∀ (cs : List BookmarkNode) (item : BookmarkNode) (fuel : Nat) (st : RunSt),
      parentChain nm item cs → cs.length < fuel →
      ∃ b st', ensureParentExistsFirst nm fuel item st = (.ok b, st') := by
  intro cs
  induction cs with
  | nil =>
    intro item fuel st hch hlen
    obtain ⟨k, rfl⟩ : ∃ k, fuel = k + 1 := by
      cases fuel with
      | zero => omega
      | succ k => exact ⟨k, rfl⟩
    cases hip : item.parentId with
    | none => exact ⟨true, st, by simp [ensureParentExistsFirst, hip]⟩
    | some pid =>
      simp only [parentChain, hip] at hch
      by_cases hc : (pid == "" || pid == "1" || pid == "2") = true
      · exact ⟨true, st, by simp [ensureParentExistsFirst, hip, hc]⟩
      · by_cases hm : mapHas st.folderMapping pid = true
        · exact ⟨true, st, by simp [ensureParentExistsFirst, hip, hc, hm]⟩
        · cases hg : mapGet nm pid with
          | none => exact ⟨true, st, by simp [ensureParentExistsFirst, hip, hc, hm, hg]⟩
          | some pf =>
            have hpf : pf.type ≠ NodeType.folder := by
              rcases hch with h | h | h | h | h
              · exact absurd (by simp [h]) hc
              · exact absurd (by simp [h]) hc
              · exact absurd (by simp [h]) hc
              · rw [hg] at h; exact absurd h (by simp)
              · exact h pf hg
            have ht : (pf.type != NodeType.folder) = true := by simp [hpf]
            exact ⟨true, st, by simp [ensureParentExistsFirst, hip, hc, hm, hg, ht]⟩
  | cons pf rest ih =>
    intro item fuel st hch hlen
    obtain ⟨pid, hip, h0, h1, h2, hg, hf, hrest⟩ := hch
    obtain ⟨k, rfl⟩ : ∃ k, fuel = k + 1 := by
      cases fuel with
      | zero => omega
      | succ k => exact ⟨k, rfl⟩
    have hc : (pid == "" || pid == "1" || pid == "2") = false := by simp [h0, h1, h2]
    by_cases hm : mapHas st.folderMapping pid = true
    · exact ⟨true, st, by simp [ensureParentExistsFirst, hip, hc, hm]⟩
    · have ht : (pf.type != NodeType.folder) = false := by simp [hf]
      by_cases hproc : pid ∈ st.processedItems
      · exact ⟨true, st, by simp [ensureParentExistsFirst, hip, hc, hm, hg, ht, hproc]⟩
      · have hlen' : rest.length < k := by simp at hlen; omega
        obtain ⟨b, st1, hrec⟩ := ih pf k st hrest hlen'
        cases b with
        | false =>
          exact ⟨false, st1, by simp [ensureParentExistsFirst, hip, hc, hm, hg, ht, hproc, hrec]⟩
        | true =>
          rcases hdc : doCreate st1
              (jsOrO (mapGet st1.folderMapping (jsOrO pf.parentId "1")) "1")
              (jsOr pf.title "Unnamed Folder") none with ⟨o, st2⟩
          cases o with
          | some cid =>
            refine ⟨true, ⟨st2.chrome, st2.ops, mapSet st2.folderMapping pf.id cid,
              setAdd st2.processedItems pf.id⟩, ?_⟩
            simp [ensureParentExistsFirst, hip, hc, hm, hg, ht, hproc, hrec, hdc]
          | none =>
            exact ⟨false, st2, by
              simp [ensureParentExistsFirst, hip, hc, hm, hg, ht, hproc, hrec, hdc]⟩

theorem ensureFull_total (nm : JsMap BookmarkNode) (ex : List BookmarkNode) :
    ∀ (cs : List BookmarkNode) (item : BookmarkNode) (fuel : Nat) (st : RunSt),
      parentChain nm item cs → cs.length < fuel →
      ∃ b st', ensureParentExistsFull nm ex fuel item st = (.ok b, st') := by
  intro cs
  induction cs with
  | nil =>
    intro item fuel st hch hlen
    obtain ⟨k, rfl⟩ : ∃ k, fuel = k + 1 := by
      cases fuel with
      | zero => omega
      | succ k => exact ⟨k, rfl⟩
    cases hip : item.parentId with
    | none => exact ⟨true, st, by simp [ensureParentExistsFull, hip]⟩
    | some pid =>
      simp only [parentChain, hip] at hch
      by_cases hc : (pid == "" || pid == "1" || pid == "2") = true
      · exact ⟨true, st, by simp [ensureParentExistsFull, hip, hc]⟩
      · by_cases hm : mapHas st.folderMapping pid = true
        · exact ⟨true, st, by simp [ensureParentExistsFull, hip, hc, hm]⟩
        · cases hg : mapGet nm pid with
          | none => exact ⟨true, st, by simp [ensureParentExistsFull, hip, hc, hm, hg]⟩
          | some pf =>
            have hpf : pf.type ≠ NodeType.folder := by
              rcases hch with h | h | h | h | h
              · exact absurd (by simp [h]) hc
              · exact absurd (by simp [h]) hc
              · exact absurd (by simp [h]) hc
              · rw [hg] at h; exact absurd h (by simp)
              · exact h pf hg
            have ht : (pf.type != NodeType.folder) = true := by simp [hpf]
            exact ⟨true, st, by simp [ensureParentExistsFull, hip, hc, hm, hg, ht]⟩
  | cons pf rest ih =>
    intro item fuel st hch hlen
    obtain ⟨pid, hip, h0, h1, h2, hg, hf, hrest⟩ := hch
    obtain ⟨k, rfl⟩ : ∃ k, fuel = k + 1 := by
      cases fuel with
      | zero => omega
      | succ k => exact ⟨k, rfl⟩
    have hc : (pid == "" || pid == "1" || pid == "2") = false := by simp [h0, h1, h2]
    by_cases hm : mapHas st.folderMapping pid = true
    · exact ⟨true, st, by simp [ensureParentExistsFull, hip, hc, hm]⟩
    · have ht : (pf.type != NodeType.folder) = false := by simp [hf]
      by_cases hproc : pid ∈ st.processedItems
      · exact ⟨true, st, by simp [ensureParentExistsFull, hip, hc, hm, hg, ht, hproc]⟩
      · have hlen' : rest.length < k := by simp at hlen; omega
        obtain ⟨b, st1, hrec⟩ := ih pf k st hrest hlen'
        cases b with
        | false =>
          exact ⟨false, st1, by simp [ensureParentExistsFull, hip, hc, hm, hg, ht, hproc, hrec]⟩
        | true =>
          cases hfind : ex.find? (fun b =>
              b.type == NodeType.folder &&
              b.title == jsOr pf.title "Unnamed Folder" &&
              b.parentId == some (jsOrO (mapGet st1.folderMapping (jsOrO pf.parentId "1")) "1")) with
          | some f =>
            refine ⟨true, ⟨st1.chrome, st1.ops, mapSet st1.folderMapping pf.id f.id,
              setAdd st1.processedItems pf.id⟩, ?_⟩
            simp [ensureParentExistsFull, hip, hc, hm, hg, ht, hproc, hrec, hfind]
          | none =>
            rcases hdc : doCreate st1
                (jsOrO (mapGet st1.folderMapping (jsOrO pf.parentId "1")) "1")
                (jsOr pf.title "Unnamed Folder") none with ⟨o, st2⟩
            cases o with
            | some cid =>
              refine ⟨true, ⟨st2.chrome, st2.ops, mapSet st2.folderMapping pf.id cid,
                setAdd st2.processedItems pf.id⟩, ?_⟩
              simp [ensureParentExistsFull, hip, hc, hm, hg, ht, hproc, hrec, hfind, hdc]
            | none =>
              exact ⟨false, st2, by
                simp [ensureParentExistsFull, hip, hc, hm, hg, ht, hproc, hrec, hfind, hdc]⟩

/-- C3 amended: the parent resolution of both modes terminates whenever the
item's folder parent chain is acyclic (any chain with a finite stopping
witness, with fuel beyond the chain length), and an item whose parentId
references a missing node or a non-folder node resolves successfully with
an unchanged state and is parented at the first fixed root; on a cyclic
chain, however, the recursion does not return (see the counterexample). -/
theorem C3_amended :
    (∀ (nm : JsMap BookmarkNode) (ex : List BookmarkNode) (st : RunSt)
        (item : BookmarkNode) (pid : String) (fuel : Nat),
      item.parentId = some pid → pid ≠ "" → pid ≠ "1" → pid ≠ "2" →
      mapHas st.folderMapping pid = false →
      (mapGet nm pid = none ∨
        ∃ pf, mapGet nm pid = some pf ∧ pf.type ≠ NodeType.folder) →
      ensureParentExistsFirst nm (fuel + 1) item st = (.ok true, st) ∧
      ensureParentExistsFull nm ex (fuel + 1) item st = (.ok true, st) ∧
      resolveParentChromeId st.folderMapping item.parentId = "1") ∧
    (∀ (nm : JsMap BookmarkNode) (cs : List BookmarkNode) (item : BookmarkNode)
        (fuel : Nat) (st : RunSt),
      parentChain nm item cs → cs.length < fuel →
      ∃ b st', ensureParentExistsFirst nm fuel item st = (.ok b, st')) ∧
    (∀ (nm : JsMap BookmarkNode) (ex : List BookmarkNode) (cs : List BookmarkNode)
        (item : BookmarkNode) (fuel : Nat) (st : RunSt),
      parentChain nm item cs → cs.length < fuel →
      ∃ b st', ensureParentExistsFull nm ex fuel item st = (.ok b, st')) :=
  ⟨fun nm ex st item pid fuel hip h0 h1 h2 hm hn =>
      ensure_nonfolder_parent nm ex st item pid fuel hip h0 h1 h2 hm hn,
   fun nm cs item fuel st hch hlen => ensureFirst_total nm cs item fuel st hch hlen,
   fun nm ex cs item fuel st hch hlen => ensureFull_total nm ex cs item fuel st hch hlen⟩

/-- C3 witness: a bookmark whose parentId names another bookmark resolves
at once to the fixed root, and a two-link acyclic folder chain terminates
with fuel three. -/
theorem C3_witness :
    (ensureParentExistsFirst (buildNodeMap [mkBm "p" "https://p.test" "P" (some "1") 1])
        1 (mkBm "x" "https://x.test" "X" (some "p") 2) initialRunSt =
      (EResult.ok true, initialRunSt)) ∧
    (∃ b st', ensureParentExistsFirst
        (buildNodeMap [mkFo "g" "G" (some "1") 1, mkFo "f" "F" (some "g") 2])
        3 (mkBm "x" "https://x.test" "X" (some "f") 3) initialRunSt = (EResult.ok b, st')) := by
  constructor
  · have h := (C3_amended.1 (buildNodeMap [mkBm "p" "https://p.test" "P" (some "1") 1])
      [] initialRunSt (mkBm "x" "https://x.test" "X" (some "p") 2) "p" 0
      rfl (by decide) (by decide) (by decide) (by decide)
      (Or.inr ⟨mkBm "p" "https://p.test" "P" (some "1") 1, rfl, by decide⟩)).1
    exact h
  · exact C3_amended.2.1 (buildNodeMap [mkFo "g" "G" (some "1") 1, mkFo "f" "F" (some "g") 2])
      [mkFo "f" "F" (some "g") 2, mkFo "g" "G" (some "1") 1]
      (mkBm "x" "https://x.test" "X" (some "f") 3) 3 initialRunSt
      ⟨"f", rfl, by decide, by decide, by decide, rfl, rfl,
        ⟨"g", rfl, by decide, by decide, by decide, rfl, rfl, Or.inr (Or.inl rfl)⟩⟩
      (by decide)

/-! Claim C4: each remote id processed at most once. -/

theorem mapGet_id_foldl (l : List BookmarkNode) :
    ∀ (m0 : JsMap BookmarkNode), (∀ k v, mapGet m0 k = some v → v.id = k) →
      ∀ k v, mapGet (l.foldl (fun m n => mapSet m n.id n) m0) k = some v → v.id = k := by
  induction l with
  | nil => intro m0 h0 k v hv; exact h0 k v hv
  | cons n ns ih =>
    intro m0 h0 k v hv
    refine ih (mapSet m0 n.id n) ?_ k v hv
    intro k' v' hv'
    rw [mapGet_mapSet] at hv'
    by_cases he : n.id = k'
    · rw [if_pos he] at hv'
      cases hv'
      exact he
    · rw [if_neg he] at hv'
      exact h0 k' v' hv'

theorem buildNodeMap_id (l : List BookmarkNode) (k : String) (v : BookmarkNode)
    (h : mapGet (buildNodeMap l) k = some v) : v.id = k :=
  mapGet_id_foldl l [] (by intro k v h; simp [mapGet] at h) k v h

/-- The remote set against claim C4: a folder dated after its child. -/
def c4Remote : List BookmarkNode :=
  [mkFo "f" "D" (some "1") 20, mkBm "b" "https://u.test" "B" (some "f") 10]

/-- The response carrying c4Remote. -/
def c4Resp : ApiResponse := { ok := true, body := some (some c4Remote) }

/-- C4 counterexample: the remote folder f is created during the parent
resolution of its earlier-dated child (first create) and then created a
second time when the chronological loop reaches f itself (third create):
the loop never consults the processed-set before creating a folder, so the
remote id f is processed twice in one firstSync run, duplicating the
folder. -/
theorem C4_counterexample :
    (firstSync (some "token") c4Resp initialChrome).2 =
      [Op.create "1" "D" none, Op.create "c3" "B" (some "https://u.test"),
       Op.create "1" "D" none, Op.push] := by rfl

/-- C4 amended: the recursive parent resolution itself never reprocesses a
parent id: when one call of ensureParentExists (firstSync variant) returns
true with state st', resolving the same item's parent again from st' is a
no-op returning true with the state (and so the trace) unchanged. The
chronological creation loop, however, does not consult the processed-set
and creates a resolution-created folder a second time (see the
counterexample). The node-map hypothesis holds for every map built by
buildNodeMap: keys map to nodes bearing that id. -/
theorem C4_amended (nm : JsMap BookmarkNode) (fuel fuel' : Nat) (item : BookmarkNode)
    (st st' : RunSt)
    (hids : ∀ k v, mapGet nm k = some v → v.id = k)
    (h : ensureParentExistsFirst nm fuel item st = (.ok true, st')) :
    ensureParentExistsFirst nm (fuel' + 1) item st' = (.ok true, st') := by
  cases fuel with
  | zero => simp [ensureParentExistsFirst] at h
  | succ k =>
    cases hip : item.parentId with
    | none =>
      simp only [ensureParentExistsFirst, hip] at h
      injection h with h1 h2
      subst h2
      simp [ensureParentExistsFirst, hip]
    | some pid =>
      by_cases hc : (pid == "" || pid == "1" || pid == "2") = true
      · simp only [ensureParentExistsFirst, hip] at h
        rw [if_pos hc] at h
        injection h with h1 h2
        subst h2
        simp only [ensureParentExistsFirst, hip]
        rw [if_pos hc]
      · by_cases hm : mapHas st.folderMapping pid = true
        · simp only [ensureParentExistsFirst, hip] at h
          rw [if_neg hc, if_pos hm] at h
          injection h with h1 h2
          subst h2
          simp only [ensureParentExistsFirst, hip]
          rw [if_neg hc, if_pos hm]
        · cases hg : mapGet nm pid with
          | none =>
            simp only [ensureParentExistsFirst, hip, hg] at h
            rw [if_neg hc, if_neg hm] at h
            injection h with h1 h2
            subst h2
            simp only [ensureParentExistsFirst, hip, hg]
            rw [if_neg hc, if_neg hm]
          | some pf =>
            by_cases hpf : (pf.type != NodeType.folder) = true
            · simp only [ensureParentExistsFirst, hip, hg] at h
              rw [if_neg hc, if_neg hm, if_pos hpf] at h
              injection h with h1 h2
              subst h2
              simp only [ensureParentExistsFirst, hip, hg]
              rw [if_neg hc, if_neg hm, if_pos hpf]
            · by_cases hq : st.processedItems.contains pid = true
              · simp only [ensureParentExistsFirst, hip, hg] at h
                rw [if_neg hc, if_neg hm, if_neg hpf, if_pos hq] at h
                injection h with h1 h2
                subst h2
                simp only [ensureParentExistsFirst, hip, hg]
                rw [if_neg hc, if_neg hm, if_neg hpf, if_pos hq]
              · have hpid : pf.id = pid := hids pid pf hg
                simp only [ensureParentExistsFirst, hip, hg] at h
                rw [if_neg hc, if_neg hm, if_neg hpf, if_neg hq] at h
                rcases hrec : ensureParentExistsFirst nm k pf st with ⟨r1, st1⟩
                simp only [hrec] at h
                cases r1 with
                | stackOverflow => simp at h
                | ok b =>
                  cases b with
                  | false => simp at h
                  | true =>
                    rcases hdc : doCreate st1
                        (jsOrO (mapGet st1.folderMapping (jsOrO pf.parentId "1")) "1")
                        (jsOr pf.title "Unnamed Folder") none with ⟨o, st2⟩
                    simp only [hdc] at h
                    cases o with
                    | none => simp at h
                    | some cid =>
                      injection h with h1 h2
                      subst h2
                      have hhas : mapHas (mapSet st2.folderMapping pf.id cid) pid = true := by
                        rw [mapHas, mapGet_mapSet, hpid, if_pos rfl]
                        rfl
                      simp only [ensureParentExistsFirst, hip]
                      rw [if_neg hc]
                      simp [hhas]

/-- C4 witness inputs: a bookmark under a single remote folder. -/
def c4wNodeMap : JsMap BookmarkNode := buildNodeMap [mkFo "p" "P" (some "1") 1]

/-- C4 witness item whose parent is the folder p. -/
def c4wItem : BookmarkNode := mkBm "x" "https://x.test" "X" (some "p") 2

/-- The state after the first resolution of the witness item. -/
def c4wSt : RunSt := (ensureParentExistsFirst c4wNodeMap 3 c4wItem initialRunSt).2

/-- C4 witness: the first resolution creates the parent folder; the second
resolution of the same item is a no-op on the resulting state. -/
theorem C4_witness :
    ensureParentExistsFirst c4wNodeMap 3 c4wItem initialRunSt = (EResult.ok true, c4wSt) ∧
    ensureParentExistsFirst c4wNodeMap 4 c4wItem c4wSt = (EResult.ok true, c4wSt) := by
  refine ⟨rfl, ?_⟩
  exact C4_amended c4wNodeMap 3 3 c4wItem initialRunSt c4wSt
    (fun k v h => buildNodeMap_id _ k v h) rfl

/-! Claim C7: ascending dateAdded creation order in Mode A. -/

theorem mem_insertByDate (b x : BookmarkNode) (l : List BookmarkNode) :
    x ∈ insertByDate b l ↔ x = b ∨ x ∈ l := by
  induction l with
  | nil => simp [insertByDate]
  | cons y ys ih =>
    by_cases h : dateKey b.dateAdded ≤ dateKey y.dateAdded
    · simp [insertByDate, h]
    · simp [insertByDate, h, ih]
      tauto

theorem pairwise_insertByDate (b : BookmarkNode) (l : List BookmarkNode)
    (h : l.Pairwise (fun a c => dateKey a.dateAdded ≤ dateKey c.dateAdded)) :
    (insertByDate b l).Pairwise (fun a c => dateKey a.dateAdded ≤ dateKey c.dateAdded) := by
  induction l with
  | nil => simp [insertByDate]
  | cons y ys ih =>
    rcases List.pairwise_cons.mp h with ⟨hy, hys⟩
    by_cases hle : dateKey b.dateAdded ≤ dateKey y.dateAdded
    · rw [insertByDate, if_pos hle]
      refine List.pairwise_cons.mpr ⟨?_, h⟩
      intro a ha
      rcases List.mem_cons.mp ha with rfl | ha
      · exact hle
      · exact le_trans hle (hy a ha)
    · rw [insertByDate, if_neg hle]
      refine List.pairwise_cons.mpr ⟨?_, ih hys⟩
      intro a ha
      rcases (mem_insertByDate b a ys).mp ha with rfl | ha
      · exact le_of_lt (lt_of_not_le hle)
      · exact hy a ha

theorem sortByDate_sorted (l : List BookmarkNode) :
    (sortByDate l).Pairwise (fun a c => dateKey a.dateAdded ≤ dateKey c.dateAdded) := by
  induction l with
  | nil => simp [sortByDate]
  | cons x xs ih => exact pairwise_insertByDate x (sortByDate xs) ih

theorem insertByDate_perm (b : BookmarkNode) (l : List BookmarkNode) :
    List.Perm (insertByDate b l) (b :: l) := by
  induction l with
  | nil => rfl
  | cons y ys ih =>
    by_cases h : dateKey b.dateAdded ≤ dateKey y.dateAdded
    · rw [insertByDate, if_pos h]
    · rw [insertByDate, if_neg h]
      exact (ih.cons y).trans (List.Perm.swap b y ys)

theorem sortByDate_perm (l : List BookmarkNode) : List.Perm (sortByDate l) l := by
  induction l with
  | nil => rfl
  | cons x xs ih => exact (insertByDate_perm x (sortByDate xs)).trans (ih.cons x)

theorem mem_sortByDate (x : BookmarkNode) (l : List BookmarkNode) :
    x ∈ sortByDate l ↔ x ∈ l := (sortByDate_perm l).mem_iff

/-- A remote bookmark with no dateAdded field. -/
def mkBmU (i u ttl : String) (p : Option String) : BookmarkNode :=
  { id := i, title := ttl, url := some u, parentId := p, dateAdded := none,
    type := .bookmark }

/-- The remote set for claim C7: bookmarks dated 30, 10, 20, one undated
bookmark, and a folder dated 40 holding a child dated 15. -/
def c7Remote : List BookmarkNode :=
  [mkBm "a30" "https://a30.test" "A30" (some "1") 30,
   mkBm "a10" "https://a10.test" "A10" (some "1") 10,
   mkBm "a20" "https://a20.test" "A20" (some "1") 20,
   mkBmU "a0" "https://a0.test" "A0" (some "1"),
   mkFo "f40" "D" (some "1") 40,
   mkBm "b15" "https://b15.test" "B15" (some "f40") 15]

/-- The response carrying c7Remote. -/
def c7Resp : ApiResponse := { ok := true, body := some (some c7Remote) }

/-- C7: the Mode A sort is ascending in the key dateAdded or-else 0 (so an
undated item sorts first), and on the concrete set the creation order of
the bookmarks dated 30, 10, 20 is 10, 20, 30, preceded by the undated one,
with the folder dated 40 created before its child dated 15 by the parent
resolution (the loop then creates that folder once more when its own turn
comes, see claim C4). -/
theorem C7_theorem :
    (∀ l : List BookmarkNode,
      (sortByDate l).Pairwise (fun a c => dateKey a.dateAdded ≤ dateKey c.dateAdded)) ∧
    (firstSync (some "token") c7Resp initialChrome).2 =
      [Op.create "1" "A0" (some "https://a0.test"),
       Op.create "1" "A10" (some "https://a10.test"),
       Op.create "1" "D" none,
       Op.create "c5" "B15" (some "https://b15.test"),
       Op.create "1" "A20" (some "https://a20.test"),
       Op.create "1" "A30" (some "https://a30.test"),
       Op.create "1" "D" none,
       Op.push] :=
  ⟨sortByDate_sorted, by rfl⟩

/-! Claim C8: the flattened lists and the three system root ids. -/

mutual
theorem traverseNode_no_sys (parent : Option String) (t : BTree) (e : BookmarkNode)
    (h : e ∈ traverseNode parent t) : isSystemId e.id = false := by
  cases t with
  | node i ttl u d cs =>
    by_cases hs : isSystemId i = true
    · rw [traverseNode, if_pos hs] at h
      exact traverseForest_no_sys (some i) cs e h
    · by_cases hu : truthyS u = true
      · rw [traverseNode, if_neg hs, if_pos hu] at h
        rcases List.mem_singleton.mp h with rfl
        simpa using hs
      · rw [traverseNode, if_neg hs, if_neg hu] at h
        rcases List.mem_cons.mp h with rfl | h
        · simpa using hs
        · exact traverseForest_no_sys (some i) cs e h
theorem traverseForest_no_sys (parent : Option String) (ts : List BTree)
    (e : BookmarkNode) (h : e ∈ traverseForest parent ts) : isSystemId e.id = false := by
  cases ts with
  | nil => simp [traverseForest] at h
  | cons t ts =>
    rw [traverseForest] at h
    rcases List.mem_append.mp h with h | h
    · exact traverseNode_no_sys parent t e h
    · exact traverseForest_no_sys parent ts e h
end

/-- C8 counterexample: the background script flattener getAllBookmarks
(the list it builds is the one POSTed to the remote store by the
bookmark-change listener) does not skip the system roots: on a fresh
profile its output consists exactly of the three root folders with ids
"0", "1" and "2". This contradicts the claim that every flattened list
produced for upload excludes the three system root ids. -/
theorem C8_counterexample :
    (getAllBookmarks [initialChrome.root]).map BookmarkNode.id = ["0", "1", "2"] := by rfl

/-- C8 amended: the syncer module flattener getExistingChromeBookmarks
(the list consumed by the reconciler and uploaded by syncBookmarksToApi)
never emits an entry with a system root id, and a system node contributes
exactly the traversal of its children; but the background script flattener
getAllBookmarks emits the root folders themselves (see the
counterexample). -/
theorem C8_amended :
    (∀ (c : Chrome) (e : BookmarkNode),
      e ∈ getExistingChromeBookmarks c → isSystemId e.id = false) ∧
    (∀ (parent : Option String) (i t : String) (u : Option String)
        (d : Option Int) (cs : List BTree), isSystemId i = true →
      traverseNode parent (BTree.node i t u d cs) = traverseForest (some i) cs) := by
  constructor
  · intro c e h
    exact traverseForest_no_sys none [c.root] e h
  · intro parent i t u d cs hs
    rw [traverseNode, if_pos hs]

/-- A small profile with one folder holding one bookmark. -/
def c8wChrome : Chrome :=
  { root := .node "0" "" none none
      [.node "1" "Bookmarks bar" none none
        [.node "20" "F" none none [.node "21" "t" (some "https://w.test") none []]],
       .node "2" "Other bookmarks" none none []],
    nextId := 100 }

/-- The flattened folder entry of the small profile. -/
def c8wEntry : BookmarkNode :=
  { id := "20", title := "F", url := none, parentId := some "1", dateAdded := none,
    type := NodeType.folder }

/-- C8 witness: the folder entry of the small profile is in the flattened
list and its id is not a system id. -/
theorem C8_witness :
    c8wEntry ∈ getExistingChromeBookmarks c8wChrome ∧
    isSystemId c8wEntry.id = false :=
  ⟨by decide, C8_amended.1 c8wChrome c8wEntry (by decide)⟩

/-! Claim C2: what the deletion pass may remove. -/

theorem doCreate_ops (st : RunSt) (p t : String) (u : Option String) :
    ((doCreate st p t u).2).ops = st.ops ++ [Op.create p t u] := by
  unfold doCreate
  cases h : chromeCreate st.chrome p t u with
  | none => rfl
  | some v => rfl

theorem doRemove_ops (st : RunSt) (i : String) :
    ((doRemove st i).2).ops = st.ops ++ [Op.remove i] := by
  unfold doRemove
  cases h : chromeRemove st.chrome i with
  | none => rfl
  | some v => rfl

theorem doRemoveTree_ops (st : RunSt) (i : String) :
    ((doRemoveTree st i).2).ops = st.ops ++ [Op.removeTree i] := by
  unfold doRemoveTree
  cases h : chromeRemoveTree st.chrome i with
  | none => rfl
  | some v => rfl

theorem doUpdate_ops (st : RunSt) (i t : String) :
    ((doUpdate st i t).2).ops = st.ops ++ [Op.update i t] := by
  unfold doUpdate
  cases h : chromeUpdate st.chrome i t with
  | none => rfl
  | some v => rfl

theorem doMove_ops (st : RunSt) (i p : String) :
    ((doMove st i p).2).ops = st.ops ++ [Op.move i p] := by
  unfold doMove
  cases h : chromeMove st.chrome i p with
  | none => rfl
  | some v => rfl

/-- The op shapes the creation/update loop may issue. -/
def isLoopOp (op : Op) : Prop :=
  (∃ p t u, op = Op.create p t u) ∨ (∃ a b, op = Op.update a b) ∨
    (∃ a b, op = Op.move a b)

theorem ensureFull_ops (nm : JsMap BookmarkNode) (ex : List BookmarkNode) :
    ∀ (fuel : Nat) (item : BookmarkNode) (st : RunSt),
      ∃ l, ((ensureParentExistsFull nm ex fuel item st).2).ops = st.ops ++ l ∧
        ∀ op ∈ l, ∃ p t u, op = Op.create p t u := by
  intro fuel
  induction fuel with
  | zero => intro item st; exact ⟨[], by simp [ensureParentExistsFull], by simp⟩
  | succ k ih =>
    intro item st
    cases hip : item.parentId with
    | none => exact ⟨[], by simp [ensureParentExistsFull, hip], by simp⟩
    | some pid =>
      by_cases hc : (pid == "" || pid == "1" || pid == "2") = true
      · exact ⟨[], by simp only [ensureParentExistsFull, hip]; rw [if_pos hc]; simp, by simp⟩
      · by_cases hm : mapHas st.folderMapping pid = true
        · exact ⟨[], by
            simp only [ensureParentExistsFull, hip]
            rw [if_neg hc, if_pos hm]
            simp, by simp⟩
        · cases hg : mapGet nm pid with
          | none =>
            exact ⟨[], by
              simp only [ensureParentExistsFull, hip, hg]
              rw [if_neg hc, if_neg hm]
              simp, by simp⟩
          | some pf =>
            by_cases hpf : (pf.type != NodeType.folder) = true
            · exact ⟨[], by
                simp only [ensureParentExistsFull, hip, hg]
                rw [if_neg hc, if_neg hm, if_pos hpf]
                simp, by simp⟩
            · by_cases hq : st.processedItems.contains pid = true
              · exact ⟨[], by
                  simp only [ensureParentExistsFull, hip, hg]
                  rw [if_neg hc, if_neg hm, if_neg hpf, if_pos hq]
                  simp, by simp⟩
              · obtain ⟨l1, hl1, hs1⟩ := ih pf st
                rcases hrec : ensureParentExistsFull nm ex k pf st with ⟨r1, st1⟩
                rw [hrec] at hl1
                have heq : ensureParentExistsFull nm ex (k + 1) item st =
                    (match ensureParentExistsFull nm ex k pf st with
                    | (.stackOverflow, st1) => (.stackOverflow, st1)
                    | (.ok false, st1) => (.ok false, st1)
                    | (.ok true, st1) =>
                      let gp := jsOrO (mapGet st1.folderMapping (jsOrO pf.parentId "1")) "1"
                      match ex.find? (fun b =>
                          b.type == NodeType.folder &&
                          b.title == jsOr pf.title "Unnamed Folder" &&
                          b.parentId == some gp) with
                      | some f =>
                        (.ok true,
                          { st1 with
                            folderMapping := mapSet st1.folderMapping pf.id f.id,
                            processedItems := setAdd st1.processedItems pf.id })
                      | none =>
                        match doCreate st1 gp (jsOr pf.title "Unnamed Folder") none with
                        | (some cid, st2) =>
                          (.ok true,
                            { st2 with
                              folderMapping := mapSet st2.folderMapping pf.id cid,
                              processedItems := setAdd st2.processedItems pf.id })
                        | (none, st2) => (.ok false, st2)) := by
                  simp only [ensureParentExistsFull, hip, hg]
                  rw [if_neg hc, if_neg hm, if_neg hpf, if_neg hq]
                cases r1 with
                | stackOverflow =>
                  rw [heq]
                  simp only [hrec]
                  exact ⟨l1, hl1, hs1⟩
                | ok b =>
                  cases b with
                  | false =>
                    rw [heq]
                    simp only [hrec]
                    exact ⟨l1, hl1, hs1⟩
                  | true =>
                    rw [heq]
                    simp only [hrec]
                    rcases hdc : doCreate st1
                        (jsOrO (mapGet st1.folderMapping (jsOrO pf.parentId "1")) "1")
                        (jsOr pf.title "Unnamed Folder") none with ⟨o, st2⟩
                    have hops2 : st2.ops = st1.ops ++
                        [Op.create (jsOrO (mapGet st1.folderMapping (jsOrO pf.parentId "1")) "1")
                          (jsOr pf.title "Unnamed Folder") none] := by
                      have hx := doCreate_ops st1
                        (jsOrO (mapGet st1.folderMapping (jsOrO pf.parentId "1")) "1")
                        (jsOr pf.title "Unnamed Folder") none
                      rw [hdc] at hx
                      exact hx
                    cases hfind : ex.find? (fun b =>
                        b.type == NodeType.folder &&
                        b.title == jsOr pf.title "Unnamed Folder" &&
                        b.parentId == some
                          (jsOrO (mapGet st1.folderMapping (jsOrO pf.parentId "1")) "1")) with
                    | some f =>
                      simp only [hfind]
                      exact ⟨l1, hl1, hs1⟩
                    | none =>
                      simp only [hfind, hdc]
                      refine ⟨l1 ++ [Op.create
                        (jsOrO (mapGet st1.folderMapping (jsOrO pf.parentId "1")) "1")
                        (jsOr pf.title "Unnamed Folder") none], ?_, ?_⟩
                      · have hl1' : st1.ops = st.ops ++ l1 := hl1
                        cases o with
                        | some cid => simp only [hops2, hl1', List.append_assoc]
                        | none => simp only [hops2, hl1', List.append_assoc]
                      · intro op hop
                        rcases List.mem_append.mp hop with hop | hop
                        · exact hs1 op hop
                        · rcases List.mem_singleton.mp hop with rfl
                          exact ⟨_, _, _, rfl⟩

theorem fullSyncItem_ops (nm : JsMap BookmarkNode) (ex : List BookmarkNode)
    (exU : JsMap BookmarkNode) (fuel : Nat) (st : RunSt) (item : BookmarkNode) :
    ∃ l, (fullSyncItem nm ex exU fuel st item).ops = st.ops ++ l ∧
      ∀ op ∈ l, isLoopOp op := by
  obtain ⟨l1, hl1, hs1⟩ := ensureFull_ops nm ex fuel item st
  rcases hrec : ensureParentExistsFull nm ex fuel item st with ⟨r1, st1⟩
  rw [hrec] at hl1
  have hl1' : st1.ops = st.ops ++ l1 := hl1
  have hsl1 : ∀ op ∈ l1, isLoopOp op := fun op hop => Or.inl (hs1 op hop)
  unfold fullSyncItem
  cases r1 with
  | stackOverflow => simp only [hrec]; exact ⟨l1, hl1', hsl1⟩
  | ok b =>
    cases b with
    | false => simp only [hrec]; exact ⟨l1, hl1', hsl1⟩
    | true =>
      simp only [hrec]
      cases htype : item.type with
      | folder =>
        cases hfind : ex.find? (fun b =>
            b.type == NodeType.folder &&
            b.title == jsOr item.title "Unnamed Folder" &&
            b.parentId == some (resolveParentChromeId st1.folderMapping item.parentId)) with
        | some f => simp only [hfind]; exact ⟨l1, hl1', hsl1⟩
        | none =>
          simp only [hfind]
          rcases hdc : doCreate st1 (resolveParentChromeId st1.folderMapping item.parentId)
              (jsOr item.title "Unnamed Folder") none with ⟨o, st2⟩
          have hops2 : st2.ops = st1.ops ++
              [Op.create (resolveParentChromeId st1.folderMapping item.parentId)
                (jsOr item.title "Unnamed Folder") none] := by
            have hx := doCreate_ops st1 (resolveParentChromeId st1.folderMapping item.parentId)
              (jsOr item.title "Unnamed Folder") none
            rw [hdc] at hx
            exact hx
          refine ⟨l1 ++ [Op.create (resolveParentChromeId st1.folderMapping item.parentId)
            (jsOr item.title "Unnamed Folder") none], ?_, ?_⟩
          · cases o with
            | some cid => simp only [hops2, hl1', List.append_assoc]
            | none => simp only [hops2, hl1', List.append_assoc]
          · intro op hop
            rcases List.mem_append.mp hop with hop | hop
            · exact hsl1 op hop
            · rcases List.mem_singleton.mp hop with rfl
              exact Or.inl ⟨_, _, _, rfl⟩
      | bookmark =>
        by_cases hu : truthyS item.url = true
        · simp only [hu, if_true]
          cases heb : mapGet exU (item.url.getD "") with
          | none =>
            simp only [heb]
            rcases hdc : doCreate st1 (resolveParentChromeId st1.folderMapping item.parentId)
                (jsOr item.title "") item.url with ⟨o, st2⟩
            have hops2 : st2.ops = st1.ops ++
                [Op.create (resolveParentChromeId st1.folderMapping item.parentId)
                  (jsOr item.title "") item.url] := by
              have hx := doCreate_ops st1 (resolveParentChromeId st1.folderMapping item.parentId)
                (jsOr item.title "") item.url
              rw [hdc] at hx
              exact hx
            refine ⟨l1 ++ [Op.create (resolveParentChromeId st1.folderMapping item.parentId)
              (jsOr item.title "") item.url], ?_, ?_⟩
            · cases o with
              | some cid => simp only [hops2, hl1', List.append_assoc]
              | none => simp only [hops2, hl1', List.append_assoc]
            · intro op hop
              rcases List.mem_append.mp hop with hop | hop
              · exact hsl1 op hop
              · rcases List.mem_singleton.mp hop with rfl
                exact Or.inl ⟨_, _, _, rfl⟩
          | some eb =>
            simp only [heb]
            by_cases hcond : (eb.title != jsOr item.title "" ||
                eb.parentId != some (resolveParentChromeId st1.folderMapping item.parentId)) = true
            · simp only [hcond, if_true]
              rcases hdu : doUpdate st1 eb.id (jsOr item.title "") with ⟨bu, st2⟩
              have hops2 : st2.ops = st1.ops ++ [Op.update eb.id (jsOr item.title "")] := by
                have hx := doUpdate_ops st1 eb.id (jsOr item.title "")
                rw [hdu] at hx
                exact hx
              cases bu with
              | false =>
                refine ⟨l1 ++ [Op.update eb.id (jsOr item.title "")], ?_, ?_⟩
                · simp only [hops2, hl1', List.append_assoc]
                · intro op hop
                  rcases List.mem_append.mp hop with hop | hop
                  · exact hsl1 op hop
                  · rcases List.mem_singleton.mp hop with rfl
                    exact Or.inr (Or.inl ⟨_, _, rfl⟩)
              | true =>
                by_cases hmv : (eb.parentId !=
                    some (resolveParentChromeId st1.folderMapping item.parentId)) = true
                · simp only [hmv, if_true]
                  rcases hmo : doMove st2 eb.id
                      (resolveParentChromeId st1.folderMapping item.parentId) with ⟨bm, st3⟩
                  have hops3 : st3.ops = st2.ops ++
                      [Op.move eb.id (resolveParentChromeId st1.folderMapping item.parentId)] := by
                    have hx := doMove_ops st2 eb.id
                      (resolveParentChromeId st1.folderMapping item.parentId)
                    rw [hmo] at hx
                    exact hx
                  refine ⟨l1 ++ [Op.update eb.id (jsOr item.title ""),
                    Op.move eb.id (resolveParentChromeId st1.folderMapping item.parentId)], ?_, ?_⟩
                  · simp [hops3, hops2, hl1', List.append_assoc]
                  · intro op hop
                    rcases List.mem_append.mp hop with hop | hop
                    · exact hsl1 op hop
                    · rcases List.mem_cons.mp hop with rfl | hop
                      · exact Or.inr (Or.inl ⟨_, _, rfl⟩)
                      · rcases List.mem_singleton.mp hop with rfl
                        exact Or.inr (Or.inr ⟨_, _, rfl⟩)
                · have hmv' : (eb.parentId !=
                      some (resolveParentChromeId st1.folderMapping item.parentId)) = false := by
                    simpa using hmv
                  simp only [hmv', Bool.false_eq_true, if_false]
                  refine ⟨l1 ++ [Op.update eb.id (jsOr item.title "")], ?_, ?_⟩
                  · simp only [hops2, hl1', List.append_assoc]
                  · intro op hop
                    rcases List.mem_append.mp hop with hop | hop
                    · exact hsl1 op hop
                    · rcases List.mem_singleton.mp hop with rfl
                      exact Or.inr (Or.inl ⟨_, _, rfl⟩)
            · simp only [hcond, if_false]
              exact ⟨l1, hl1', hsl1⟩
        · simp only [hu, if_false]
          exact ⟨l1, hl1', hsl1⟩

theorem fullSyncLoop_ops (nm : JsMap BookmarkNode) (ex : List BookmarkNode)
    (exU : JsMap BookmarkNode) (fuel : Nat) (items : List BookmarkNode) :
    ∀ st : RunSt, ∃ l, (items.foldl (fullSyncItem nm ex exU fuel) st).ops = st.ops ++ l ∧
      ∀ op ∈ l, isLoopOp op := by
  induction items with
  | nil => intro st; exact ⟨[], by simp, by simp⟩
  | cons it its ih =>
    intro st
    obtain ⟨l1, h1, s1⟩ := fullSyncItem_ops nm ex exU fuel st it
    obtain ⟨l2, h2, s2⟩ := ih (fullSyncItem nm ex exU fuel st it)
    refine ⟨l1 ++ l2, ?_, ?_⟩
    · rw [List.foldl_cons, h2, h1, List.append_assoc]
    · intro op hop
      rcases List.mem_append.mp hop with hop | hop
      · exact s1 op hop
      · exact s2 op hop

theorem removeBookmarksPass_ops (api : JsMap BookmarkNode) (exm : JsMap BookmarkNode) :
    ∀ st : RunSt, ∃ l, (removeBookmarksPass api exm st).ops = st.ops ++ l ∧
      ∀ op ∈ l, ∃ k v, (k, v) ∈ exm ∧ mapHas api k = false ∧ op = Op.remove v.id := by
  induction exm with
  | nil => intro st; exact ⟨[], by simp [removeBookmarksPass], by simp⟩
  | cons p ps ih =>
    intro st
    by_cases hk : mapHas api p.1 = true
    · obtain ⟨l, hl, hsh⟩ := ih st
      refine ⟨l, ?_, ?_⟩
      · have hstep : removeBookmarksPass api (p :: ps) st = removeBookmarksPass api ps st := by
          rw [removeBookmarksPass, removeBookmarksPass, List.foldl_cons, if_pos hk]
        rw [hstep]
        exact hl
      · intro op hop
        obtain ⟨k, v, hkv, hnk, heq⟩ := hsh op hop
        exact ⟨k, v, List.mem_cons_of_mem p hkv, hnk, heq⟩
    · obtain ⟨l, hl, hsh⟩ := ih ((doRemove st p.2.id).2)
      refine ⟨[Op.remove p.2.id] ++ l, ?_, ?_⟩
      · have hstep : removeBookmarksPass api (p :: ps) st =
            removeBookmarksPass api ps ((doRemove st p.2.id).2) := by
          rw [removeBookmarksPass, removeBookmarksPass, List.foldl_cons, if_neg hk]
        rw [hstep, hl, doRemove_ops]
        simp [List.append_assoc]
      · intro op hop
        rcases List.mem_append.mp hop with hop | hop
        · rcases List.mem_singleton.mp hop with rfl
          refine ⟨p.1, p.2, by simp, by simp [hk], rfl⟩
        · obtain ⟨k, v, hkv, hnk, heq⟩ := hsh op hop
          exact ⟨k, v, List.mem_cons_of_mem p hkv, hnk, heq⟩

theorem removeFoldersPass_ops (api : JsMap BookmarkNode) (exm : JsMap BookmarkNode) :
    ∀ st : RunSt, ∃ l, (removeFoldersPass api exm st).ops = st.ops ++ l ∧
      ∀ op ∈ l, ∃ k v, (k, v) ∈ exm ∧ mapHas api k = false ∧ op = Op.removeTree v.id := by
  induction exm with
  | nil => intro st; exact ⟨[], by simp [removeFoldersPass], by simp⟩
  | cons p ps ih =>
    intro st
    by_cases hk : mapHas api p.1 = true
    · obtain ⟨l, hl, hsh⟩ := ih st
      refine ⟨l, ?_, ?_⟩
      · have hstep : removeFoldersPass api (p :: ps) st = removeFoldersPass api ps st := by
          rw [removeFoldersPass, removeFoldersPass, List.foldl_cons, if_pos hk]
        rw [hstep]
        exact hl
      · intro op hop
        obtain ⟨k, v, hkv, hnk, heq⟩ := hsh op hop
        exact ⟨k, v, List.mem_cons_of_mem p hkv, hnk, heq⟩
    · obtain ⟨l, hl, hsh⟩ := ih ((doRemoveTree st p.2.id).2)
      refine ⟨[Op.removeTree p.2.id] ++ l, ?_, ?_⟩
      · have hstep : removeFoldersPass api (p :: ps) st =
            removeFoldersPass api ps ((doRemoveTree st p.2.id).2) := by
          rw [removeFoldersPass, removeFoldersPass, List.foldl_cons, if_neg hk]
        rw [hstep, hl, doRemoveTree_ops]
        simp [List.append_assoc]
      · intro op hop
        rcases List.mem_append.mp hop with hop | hop
        · rcases List.mem_singleton.mp hop with rfl
          refine ⟨p.1, p.2, by simp, by simp [hk], rfl⟩
        · obtain ⟨k, v, hkv, hnk, heq⟩ := hsh op hop
          exact ⟨k, v, List.mem_cons_of_mem p hkv, hnk, heq⟩

theorem mem_mapSet {α : Type} (m : JsMap α) (k' : String) (v' : α) :
    ∀ p : String × α, p ∈ mapSet m k' v' → p = (k', v') ∨ p ∈ m := by
  induction m with
  | nil => intro p h; simpa [mapSet] using h
  | cons q qs ih =>
    intro p h
    by_cases hq : (q.1 == k') = true
    · rw [mapSet, if_pos hq] at h
      rcases List.mem_cons.mp h with rfl | h
      · exact Or.inl rfl
      · exact Or.inr (List.mem_cons_of_mem q h)
    · rw [mapSet, if_neg hq] at h
      rcases List.mem_cons.mp h with rfl | h
      · exact Or.inr (List.mem_cons_self _ _)
      · rcases ih p h with h | h
        · exact Or.inl h
        · exact Or.inr (List.mem_cons_of_mem q h)

theorem mem_urlFold (l : List BookmarkNode) :
    ∀ (m0 : JsMap BookmarkNode) (p : String × BookmarkNode),
      p ∈ l.foldl (fun m b =>
        if b.type == NodeType.bookmark && truthyS b.url then mapSet m (b.url.getD "") b
        else m) m0 →
      p ∈ m0 ∨ ∃ b, b ∈ l ∧ b.type = NodeType.bookmark ∧ truthyS b.url = true ∧
        p = (b.url.getD "", b) := by
  induction l with
  | nil => intro m0 p h; exact Or.inl h
  | cons b bs ih =>
    intro m0 p h
    rw [List.foldl_cons] at h
    rcases ih _ p h with h1 | ⟨x, hx, ht, hu, hp⟩
    · by_cases hb : (b.type == NodeType.bookmark && truthyS b.url) = true
      · rw [if_pos hb] at h1
        rcases mem_mapSet m0 (b.url.getD "") b p h1 with rfl | h1
        · refine Or.inr ⟨b, List.mem_cons_self b bs, ?_, ?_, rfl⟩
          · have := (Bool.and_eq_true _ _).mp hb
            exact beq_iff_eq.mp this.1
          · exact ((Bool.and_eq_true _ _).mp hb).2
        · exact Or.inl h1
      · rw [if_neg hb] at h1
        exact Or.inl h1
    · exact Or.inr ⟨x, List.mem_cons_of_mem b hx, ht, hu, hp⟩

theorem mem_buildUrlMap (l : List BookmarkNode) (p : String × BookmarkNode)
    (h : p ∈ buildUrlMap l) :
    ∃ b, b ∈ l ∧ b.type = NodeType.bookmark ∧ truthyS b.url = true ∧
      p = (b.url.getD "", b) := by
  rcases mem_urlFold l [] p h with h | h
  · simp at h
  · exact h

theorem mem_folderFold (l : List BookmarkNode) :
    ∀ (m0 : JsMap BookmarkNode) (p : String × BookmarkNode),
      p ∈ l.foldl (fun m b =>
        if b.type == NodeType.folder then mapSet m b.id b else m) m0 →
      p ∈ m0 ∨ ∃ b, b ∈ l ∧ b.type = NodeType.folder ∧ p = (b.id, b) := by
  induction l with
  | nil => intro m0 p h; exact Or.inl h
  | cons b bs ih =>
    intro m0 p h
    rw [List.foldl_cons] at h
    rcases ih _ p h with h1 | ⟨x, hx, ht, hp⟩
    · by_cases hb : (b.type == NodeType.folder) = true
      · rw [if_pos hb] at h1
        rcases mem_mapSet m0 b.id b p h1 with rfl | h1
        · exact Or.inr ⟨b, List.mem_cons_self b bs, beq_iff_eq.mp hb, rfl⟩
        · exact Or.inl h1
      · rw [if_neg hb] at h1
        exact Or.inl h1
    · exact Or.inr ⟨x, List.mem_cons_of_mem b hx, ht, hp⟩

theorem mem_buildFolderMap (l : List BookmarkNode) (p : String × BookmarkNode)
    (h : p ∈ buildFolderMap l) :
    ∃ b, b ∈ l ∧ b.type = NodeType.folder ∧ p = (b.id, b) := by
  rcases mem_folderFold l [] p h with h | h
  · simp at h
  · exact h

/-- The local profile against claim C2: a folder (id 10) holding a
bookmark (id 11) whose url also exists remotely. -/
def c2Chrome : Chrome :=
  { root := .node "0" "" none none
      [.node "1" "Bookmarks bar" none none
        [.node "10" "F" none none [.node "11" "t" (some "https://old.test/x") none []]],
       .node "2" "Other bookmarks" none none []],
    nextId := 100 }

/-- The remote set against claim C2: the same url at the first fixed root,
and no folder with the local folder's id. -/
def c2Remote : List BookmarkNode := [mkBm "r1" "https://old.test/x" "t" (some "1") 1]

/-- The response carrying c2Remote. -/
def c2Resp : ApiResponse := { ok := true, body := some (some c2Remote) }

/-- C2 counterexample: the local bookmark whose url is present in the
remote url map is nevertheless deleted from the local tree: its containing
folder's Chrome id is absent from the remote folder-id map (local and
remote ids are not comparable), so the folder is removed with its whole
subtree; the later update against the stale snapshot fails and the
creation pass never recreates the bookmark, so the final local tree is
empty. This contradicts the claim that such a bookmark is retained or
updated but never removed. -/
theorem C2_counterexample :
    mapHas (buildUrlMap (filterSystem c2Remote)) "https://old.test/x" = true ∧
    (∃ e ∈ getExistingChromeBookmarks c2Chrome, e.url = some "https://old.test/x") ∧
    (fullSync (some "token") c2Resp c2Chrome).2 = [Op.removeTree "10", Op.update "11" "t"] ∧
    getExistingChromeBookmarks (fullSync (some "token") c2Resp c2Chrome).1 = [] := by
  exact ⟨by decide,
    ⟨⟨"11", "t", some "https://old.test/x", some "10", none, .bookmark⟩, by decide, rfl⟩,
    by rfl, by rfl⟩

/-- C2 amended: the direct deletion calls of fullSync respect the remote
key maps: every issued chrome.bookmarks.remove targets a pre-run local
bookmark with a truthy url whose url is absent from the remote url map,
and every issued removeTree targets a pre-run local folder whose id is
absent from the remote folder-id map. A bookmark whose url is present
remotely can still disappear as part of the subtree of such a removed
folder (see the counterexample), so only the deletion calls, not
retention, are characterised. -/
theorem C2_amended (tok : Option String) (resp : ApiResponse) (c : Chrome) (i : String) :
    (Op.remove i ∈ (fullSync tok resp c).2 →
      ∃ b u, b ∈ getExistingChromeBookmarks c ∧ b.id = i ∧ b.type = NodeType.bookmark ∧
        b.url = some u ∧ u ≠ "" ∧
        mapGet (buildUrlMap (filterSystem (respBookmarks resp))) u = none) ∧
    (Op.removeTree i ∈ (fullSync tok resp c).2 →
      ∃ f, f ∈ getExistingChromeBookmarks c ∧ f.id = i ∧ f.type = NodeType.folder ∧
        mapGet (buildFolderMap (filterSystem (respBookmarks resp))) i = none) := by
  by_cases ht : truthyS tok = true
  case neg =>
    have hops : (fullSync tok resp c).2 = [] := by
      unfold fullSync fullSyncPromise fullSyncBody
      simp [ht]
    rw [hops]
    exact ⟨fun h => absurd h (List.not_mem_nil _), fun h => absurd h (List.not_mem_nil _)⟩
  case pos =>
  by_cases hok : resp.ok = true
  case neg =>
    have hops : (fullSync tok resp c).2 = [] := by
      unfold fullSync fullSyncPromise fullSyncBody
      simp [ht, hok]
    rw [hops]
    exact ⟨fun h => absurd h (List.not_mem_nil _), fun h => absurd h (List.not_mem_nil _)⟩
  case pos =>
  cases hb : resp.body with
  | none =>
    have hops : (fullSync tok resp c).2 = [] := by
      unfold fullSync fullSyncPromise fullSyncBody
      simp [ht, hok, hb]
    rw [hops]
    exact ⟨fun h => absurd h (List.not_mem_nil _), fun h => absurd h (List.not_mem_nil _)⟩
  | some ob =>
    have hrb : respBookmarks resp = ob.getD [] := by
      unfold respBookmarks
      rw [hb]
      cases ob <;> rfl
    by_cases hfe : (filterSystem (ob.getD [])).isEmpty = true
    case pos =>
      have hops : (fullSync tok resp c).2 = [] := by
        unfold fullSync fullSyncPromise fullSyncBody
        simp [ht, hok, hb, hfe]
      rw [hops]
      exact ⟨fun h => absurd h (List.not_mem_nil _), fun h => absurd h (List.not_mem_nil _)⟩
    case neg =>
      have heq : (fullSync tok resp c).2 =
          ((sortByDate (filterSystem (ob.getD []))).foldl
            (fullSyncItem (buildNodeMap (filterSystem (ob.getD [])))
              (getExistingChromeBookmarks c)
              (buildUrlMap (getExistingChromeBookmarks c))
              ((filterSystem (ob.getD [])).length + 2))
            (removeFoldersPass (buildFolderMap (filterSystem (ob.getD [])))
              (buildFolderMap (getExistingChromeBookmarks c))
              (removeBookmarksPass (buildUrlMap (filterSystem (ob.getD [])))
                (buildUrlMap (getExistingChromeBookmarks c))
                ⟨c, [], baseFolderMapping, []⟩))).ops := by
        unfold fullSync fullSyncPromise fullSyncBody
        simp [ht, hok, hb, hfe]
      obtain ⟨l1, h1, s1⟩ := removeBookmarksPass_ops
        (buildUrlMap (filterSystem (ob.getD [])))
        (buildUrlMap (getExistingChromeBookmarks c))
        ⟨c, [], baseFolderMapping, []⟩
      obtain ⟨l2, h2, s2⟩ := removeFoldersPass_ops
        (buildFolderMap (filterSystem (ob.getD [])))
        (buildFolderMap (getExistingChromeBookmarks c))
        (removeBookmarksPass (buildUrlMap (filterSystem (ob.getD [])))
          (buildUrlMap (getExistingChromeBookmarks c))
          ⟨c, [], baseFolderMapping, []⟩)
      obtain ⟨l3, h3, s3⟩ := fullSyncLoop_ops
        (buildNodeMap (filterSystem (ob.getD [])))
        (getExistingChromeBookmarks c)
        (buildUrlMap (getExistingChromeBookmarks c))
        ((filterSystem (ob.getD [])).length + 2)
        (sortByDate (filterSystem (ob.getD [])))
        (removeFoldersPass (buildFolderMap (filterSystem (ob.getD [])))
          (buildFolderMap (getExistingChromeBookmarks c))
          (removeBookmarksPass (buildUrlMap (filterSystem (ob.getD [])))
            (buildUrlMap (getExistingChromeBookmarks c))
            ⟨c, [], baseFolderMapping, []⟩))
      have hall : (fullSync tok resp c).2 = ([] ++ l1) ++ l2 ++ l3 := by
        rw [heq, h3, h2, h1]
      constructor
      · intro hmem
        rw [hall] at hmem
        have hmem1 : Op.remove i ∈ l1 := by
          rcases List.mem_append.mp hmem with hmem | hmem
          · rcases List.mem_append.mp hmem with hmem | hmem
            · simpa using hmem
            · obtain ⟨k, v, hkv, hnk, hopeq⟩ := s2 (Op.remove i) hmem
              exact absurd hopeq (by simp)
          · rcases s3 (Op.remove i) hmem with ⟨p, t, u, hx⟩ | ⟨a, b2, hx⟩ | ⟨a, b2, hx⟩ <;>
              exact absurd hx (by simp)
        obtain ⟨k, v, hkv, hnk, hopeq⟩ := s1 (Op.remove i) hmem1
        have hvi : i = v.id := Op.remove.inj hopeq
        obtain ⟨b, hbmem, hbt, hbu, hbp⟩ := mem_buildUrlMap (getExistingChromeBookmarks c)
          (k, v) hkv
        injection hbp with hk1 hk2
        rw [hk2] at hvi
        cases hbu2 : b.url with
        | none => rw [hbu2] at hbu; simp [truthyS] at hbu
        | some sv =>
          have hsne : sv ≠ "" := by
            rw [hbu2] at hbu
            simpa [truthyS] using hbu
          have hk1' : k = sv := by
            rw [hbu2] at hk1
            simpa using hk1
          refine ⟨b, sv, hbmem, hvi.symm, hbt, hbu2, hsne, ?_⟩
          rw [hrb]
          cases hq : mapGet (buildUrlMap (filterSystem (ob.getD []))) sv with
          | none => rfl
          | some w =>
            rw [hk1'] at hnk
            rw [mapHas, hq] at hnk
            simp at hnk
      · intro hmem
        rw [hall] at hmem
        have hmem2 : Op.removeTree i ∈ l2 := by
          rcases List.mem_append.mp hmem with hmem | hmem
          · rcases List.mem_append.mp hmem with hmem | hmem
            · obtain ⟨k, v, hkv, hnk, hopeq⟩ := s1 (Op.removeTree i) (by simpa using hmem)
              exact absurd hopeq (by simp)
            · exact hmem
          · rcases s3 (Op.removeTree i) hmem with ⟨p, t, u, hx⟩ | ⟨a, b2, hx⟩ | ⟨a, b2, hx⟩ <;>
              exact absurd hx (by simp)
        obtain ⟨k, v, hkv, hnk, hopeq⟩ := s2 (Op.removeTree i) hmem2
        have hvi : i = v.id := Op.removeTree.inj hopeq
        obtain ⟨b, hbmem, hbt, hbp⟩ := mem_buildFolderMap (getExistingChromeBookmarks c)
          (k, v) hkv
        injection hbp with hk1 hk2
        rw [hk2] at hvi
        refine ⟨b, hbmem, hvi.symm, hbt, ?_⟩
        rw [hrb]
        cases hq : mapGet (buildFolderMap (filterSystem (ob.getD []))) i with
        | none => rfl
        | some w =>
          rw [hk1] at hnk
          rw [show b.id = i from hvi.symm] at hnk
          rw [mapHas, hq] at hnk
          simp at hnk

/-- C2 witness: the amended theorem applied to the concrete profile; the
issued removeTree targets the folder with id 10, which is indeed a pre-run
local folder absent from the remote folder map. -/
theorem C2_witness :
    Op.removeTree "10" ∈ (fullSync (some "token") c2Resp c2Chrome).2 ∧
    (∃ f, f ∈ getExistingChromeBookmarks c2Chrome ∧ f.id = "10" ∧ f.type = NodeType.folder ∧
      mapGet (buildFolderMap (filterSystem (respBookmarks c2Resp))) "10" = none) :=
  ⟨by decide, (C2_amended (some "token") c2Resp c2Chrome "10").2 (by decide)⟩

/-! Claim C5: the merge branch of Mode A. -/

mutual
/-- No node of the tree carries one of the three system root ids. -/
def btNoSys : BTree → Bool
  | .node i _ _ _ cs => !(isSystemId i) && bfNoSys cs
def bfNoSys : List BTree → Bool
  | [] => true
  | t :: ts => btNoSys t && bfNoSys ts
end

/-- A well-formed browser store: the umbrella root "0" holds exactly the
two fixed roots "1" and "2", and no node below them reuses a system id. -/
def rootShape (c : Chrome) : Prop :=
  ∃ rt ru rd t1 u1 d1 bs1 t2 u2 d2 bs2,
    c.root = .node "0" rt ru rd
      [.node "1" t1 u1 d1 bs1, .node "2" t2 u2 d2 bs2] ∧
    bfNoSys bs1 = true ∧ bfNoSys bs2 = true

/-- Bookmark-url membership in a flattened node list: some entry is a
bookmark with exactly this (nonempty) url. -/
def hasBmUrl (l : List BookmarkNode) (u : String) : Prop :=
  ∃ e ∈ l, e.type = NodeType.bookmark ∧ e.url = some u ∧ u ≠ ""

mutual
theorem btAppendChild_noop (pid : String) (hpid : isSystemId pid = true) (x : BTree)
    (t : BTree) (h : btNoSys t = true) : btAppendChild pid x t = t := by
  cases t with
  | node j ti u d cs =>
    rw [btNoSys] at h
    rcases Bool.and_eq_true .. ▸ h with ⟨h1, h2⟩
    rw [btAppendChild, if_neg ?_]
    · rw [bfAppendChild_noop pid hpid x cs h2]
    · intro hj
      rw [beq_iff_eq.mp hj] at h1
      rw [hpid] at h1
      simp at h1
theorem bfAppendChild_noop (pid : String) (hpid : isSystemId pid = true) (x : BTree)
    (ts : List BTree) (h : bfNoSys ts = true) : bfAppendChild pid x ts = ts := by
  cases ts with
  | nil => rfl
  | cons t ts =>
    rw [bfNoSys] at h
    rcases Bool.and_eq_true .. ▸ h with ⟨h1, h2⟩
    rw [bfAppendChild, btAppendChild_noop pid hpid x t h1, bfAppendChild_noop pid hpid x ts h2]
end

theorem bfNoSys_append (as bs : List BTree) :
    bfNoSys (as ++ bs) = (bfNoSys as && bfNoSys bs) := by
  induction as with
  | nil => simp [bfNoSys]
  | cons t ts ih => simp [bfNoSys, ih, Bool.and_assoc]

theorem cid_not_sys (s : String) : isSystemId ("c" ++ s) = false := by
  have hne : ∀ r : String, r.data = ['0'] ∨ r.data = ['1'] ∨ r.data = ['2'] →
      ("c" ++ s) ≠ r := by
    intro r hr h
    have hd := congrArg String.data h
    rw [String.data_append] at hd
    rcases hr with hr | hr | hr <;>
      · rw [hr] at hd
        have : "c".data = ['c'] := rfl
        rw [this] at hd
        simp at hd
  have h0 : (("c" ++ s) == "0") = false := beq_eq_false_iff_ne.mpr (hne "0" (Or.inl rfl))
  have h1 : (("c" ++ s) == "1") = false :=
    beq_eq_false_iff_ne.mpr (hne "1" (Or.inr (Or.inl rfl)))
  have h2 : (("c" ++ s) == "2") = false :=
    beq_eq_false_iff_ne.mpr (hne "2" (Or.inr (Or.inr rfl)))
  rw [isSystemId, h0, h1, h2]
  rfl

theorem traverseForest_append (p : Option String) (as bs : List BTree) :
    traverseForest p (as ++ bs) = traverseForest p as ++ traverseForest p bs := by
  induction as with
  | nil => simp [traverseForest]
  | cons t ts ih => simp [traverseForest, ih]

theorem flatten_shape (n : Nat) (rt : String) (ru : Option String) (rd : Option Int)
    (t1 : String) (u1 : Option String) (d1 : Option Int) (bs1 : List BTree)
    (t2 : String) (u2 : Option String) (d2 : Option Int) (bs2 : List BTree) :
    getExistingChromeBookmarks
      ⟨.node "0" rt ru rd [.node "1" t1 u1 d1 bs1, .node "2" t2 u2 d2 bs2], n⟩ =
      traverseForest (some "1") bs1 ++ traverseForest (some "2") bs2 := by
  show traverseForest none [BTree.node "0" rt ru rd
    [BTree.node "1" t1 u1 d1 bs1, BTree.node "2" t2 u2 d2 bs2]] = _
  rw [traverseForest, traverseForest, traverseNode, if_pos (by rfl)]
  rw [traverseForest, traverseNode, if_pos (by rfl)]
  rw [traverseForest, traverseNode, if_pos (by rfl)]
  rw [traverseForest]
  simp

theorem chromeCreate_under1 (c : Chrome) (hshape : rootShape c)
    (ttl : String) (url : Option String) :
    ∃ i c', chromeCreate c "1" ttl url = some (i, c') ∧ rootShape c' ∧
      (∀ u, hasBmUrl (getExistingChromeBookmarks c') u ↔
        (hasBmUrl (getExistingChromeBookmarks c) u ∨ (url = some u ∧ u ≠ ""))) := by
  obtain ⟨rt, ru, rd, t1, u1, d1, bs1, t2, u2, d2, bs2, hroot, hb1, hb2⟩ := hshape
  have hhas : btHasId "1" c.root = true := by
    rw [hroot]
    rw [btHasId, bfHasId, btHasId]
    simp
  have happ : btAppendChild "1" (.node ("c" ++ toString c.nextId) ttl url none []) c.root =
      .node "0" rt ru rd
        [.node "1" t1 u1 d1 (bs1 ++ [.node ("c" ++ toString c.nextId) ttl url none []]),
         .node "2" t2 u2 d2 bs2] := by
    rw [hroot]
    rw [btAppendChild, if_neg (by decide)]
    rw [bfAppendChild, btAppendChild, if_pos (by rfl)]
    rw [bfAppendChild, btAppendChild, if_neg (by decide)]
    rw [bfAppendChild]
    rw [bfAppendChild_noop "1" (by rfl) _ bs2 hb2]
  refine ⟨"c" ++ toString c.nextId,
    ⟨.node "0" rt ru rd
      [.node "1" t1 u1 d1 (bs1 ++ [.node ("c" ++ toString c.nextId) ttl url none []]),
       .node "2" t2 u2 d2 bs2], c.nextId + 1⟩, ?_, ?_, ?_⟩
  · rw [chromeCreate, if_pos hhas]
    show some ("c" ++ toString c.nextId,
      ({ root := btAppendChild "1" (BTree.node ("c" ++ toString c.nextId) ttl url none []) c.root,
         nextId := c.nextId + 1 } : Chrome)) = _
    rw [happ]
  · refine ⟨rt, ru, rd, t1, u1, d1, _, t2, u2, d2, bs2, rfl, ?_, hb2⟩
    rw [bfNoSys_append, hb1]
    simp [bfNoSys, btNoSys, cid_not_sys]
  · intro u
    have hflat := flatten_shape (c.nextId + 1) rt ru rd t1 u1 d1
      (bs1 ++ [.node ("c" ++ toString c.nextId) ttl url none []]) t2 u2 d2 bs2
    have hflat0 : getExistingChromeBookmarks c =
        traverseForest (some "1") bs1 ++ traverseForest (some "2") bs2 := by
      have := flatten_shape c.nextId rt ru rd t1 u1 d1 bs1 t2 u2 d2 bs2
      rw [show c = ⟨c.root, c.nextId⟩ from rfl, hroot]
      exact this
    rw [hflat, hflat0, traverseForest_append]
    have hleaf : traverseForest (some "1")
        [BTree.node ("c" ++ toString c.nextId) ttl url none []] =
        traverseNode (some "1") (BTree.node ("c" ++ toString c.nextId) ttl url none []) := by
      rw [traverseForest, traverseForest]
      simp
    constructor
    · rintro ⟨e, he, het, heu, hne⟩
      rcases List.mem_append.mp he with he | he
      · rcases List.mem_append.mp he with he | he
        · exact Or.inl ⟨e, List.mem_append_left _ he, het, heu, hne⟩
        · rw [hleaf, traverseNode, if_neg (by simp [cid_not_sys])] at he
          by_cases hu : truthyS url = true
          · rw [if_pos hu] at he
            rcases List.mem_singleton.mp he with rfl
            exact Or.inr ⟨heu, hne⟩
          · rw [if_neg hu] at he
            rcases List.mem_cons.mp he with rfl | he
            · simp at heu
            · rw [traverseForest] at he
              simp at he
      · exact Or.inl ⟨e, List.mem_append_right _ he, het, heu, hne⟩
    · rintro (⟨e, he, het, heu, hne⟩ | ⟨hurl, hne⟩)
      · rcases List.mem_append.mp he with he | he
        · exact ⟨e, List.mem_append_left _ (List.mem_append_left _ he), het, heu, hne⟩
        · exact ⟨e, List.mem_append_right _ he, het, heu, hne⟩
      · refine ⟨⟨"c" ++ toString c.nextId, ttl, url, some "1", none, .bookmark⟩,
          ?_, rfl, hurl, hne⟩
        refine List.mem_append_left _ (List.mem_append_right _ ?_)
        rw [hleaf, traverseNode, if_neg (by simp [cid_not_sys])]
        rw [if_pos (by rw [hurl]; simpa [truthyS] using hne)]
        simp

theorem mergeLoop (l : List BookmarkNode) :
    ∀ st : RunSt, rootShape st.chrome →
      (∀ b ∈ l, b.type = NodeType.bookmark ∧ truthyS b.url = true) →
      rootShape (l.foldl firstSyncMergeItem st).chrome ∧
      (l.foldl firstSyncMergeItem st).ops =
        st.ops ++ l.map (fun b => Op.create "1" (jsOr b.title "") b.url) ∧
      (∀ u, hasBmUrl (getExistingChromeBookmarks (l.foldl firstSyncMergeItem st).chrome) u ↔
        (hasBmUrl (getExistingChromeBookmarks st.chrome) u ∨
          ∃ b ∈ l, b.url = some u ∧ u ≠ "")) := by
  induction l with
  | nil =>
    intro st hs hb
    exact ⟨hs, by simp, fun u => by simp⟩
  | cons b bs ih =>
    intro st hs hb
    obtain ⟨i, c', hcr, hs', hiff⟩ := chromeCreate_under1 st.chrome hs (jsOr b.title "") b.url
    have hstep : firstSyncMergeItem st b =
        ⟨c', st.ops ++ [Op.create "1" (jsOr b.title "") b.url],
          st.folderMapping, st.processedItems⟩ := by
      unfold firstSyncMergeItem doCreate
      rw [hcr]
    rw [List.foldl_cons, hstep]
    obtain ⟨hs2, hops2, hiff2⟩ := ih
      ⟨c', st.ops ++ [Op.create "1" (jsOr b.title "") b.url],
        st.folderMapping, st.processedItems⟩
      hs' (fun x hx => hb x (List.mem_cons_of_mem b hx))
    refine ⟨hs2, ?_, ?_⟩
    · rw [hops2]
      simp
    · intro u
      rw [hiff2 u]
      have h3 : hasBmUrl (getExistingChromeBookmarks c') u ↔
          (hasBmUrl (getExistingChromeBookmarks st.chrome) u ∨
            (b.url = some u ∧ u ≠ "")) := hiff u
      rw [show (getExistingChromeBookmarks
          (⟨c', st.ops ++ [Op.create "1" (jsOr b.title "") b.url],
            st.folderMapping, st.processedItems⟩ : RunSt).chrome) =
          getExistingChromeBookmarks c' from rfl]
      rw [h3]
      constructor
      · rintro ((h | ⟨hu1, hu2⟩) | ⟨x, hx, hx2⟩)
        · exact Or.inl h
        · exact Or.inr ⟨b, List.mem_cons_self b bs, hu1, hu2⟩
        · exact Or.inr ⟨x, List.mem_cons_of_mem b hx, hx2⟩
      · rintro (h | ⟨x, hx, hx2⟩)
        · exact Or.inl (Or.inl h)
        · rcases List.mem_cons.mp hx with rfl | hx
          · exact Or.inl (Or.inr hx2)
          · exact Or.inr ⟨x, hx, hx2⟩

theorem mem_existingUrlsOf (c : Chrome) (u : String) :
    u ∈ existingUrlsOf c ↔ hasBmUrl (getExistingChromeBookmarks c) u := by
  unfold existingUrlsOf hasBmUrl
  rw [List.mem_map]
  constructor
  · rintro ⟨e, he, rfl⟩
    rw [List.mem_filter] at he
    obtain ⟨hmem, hp⟩ := he
    rcases Bool.and_eq_true .. ▸ hp with ⟨ht, hu⟩
    cases heu : e.url with
    | none => rw [heu] at hu; simp [truthyS] at hu
    | some sv =>
      refine ⟨e, hmem, beq_iff_eq.mp ht, ?_, ?_⟩
      · rw [heu]
        simp
      · rw [heu] at hu
        have hsv : sv ≠ "" := by simpa [truthyS] using hu
        simpa using hsv
  · rintro ⟨e, he, het, heu, hne⟩
    refine ⟨e, ?_, ?_⟩
    · rw [List.mem_filter]
      refine ⟨he, ?_⟩
      rw [heu]
      simp [het, truthyS, hne]
    · rw [heu]
      rfl

/-- C5: in the merge branch of Mode A (local URL set nonempty), the run
issues exactly one create per remote bookmark whose url is not already
present locally, each under the first fixed root, in ascending dateAdded
order, no folder create, followed by the final push; and the post-run
local bookmark URL set is the union of the pre-run local set and the
(system-id-filtered) remote bookmark URL set. -/
theorem C5_theorem (tok : Option String) (rok : Bool) (c : Chrome)
    (R : List BookmarkNode) (hshape : rootShape c) (ht : truthyS tok = true)
    (hne : (existingUrlsOf c).isEmpty = false) :
    (firstSync tok { ok := rok, body := some (some R) } c).2 =
      ((sortByDate (bookmarksToAdd c (filterSystem R))).map
        (fun b => Op.create "1" (jsOr b.title "") b.url)) ++ [Op.push] ∧
    (∀ u, hasBmUrl (getExistingChromeBookmarks
        (firstSync tok { ok := rok, body := some (some R) } c).1) u ↔
      (hasBmUrl (getExistingChromeBookmarks c) u ∨
        ∃ b ∈ filterSystem R, b.type = NodeType.bookmark ∧ b.url = some u ∧ u ≠ "")) := by
  have hel : ∀ b ∈ sortByDate (bookmarksToAdd c (filterSystem R)),
      b.type = NodeType.bookmark ∧ truthyS b.url = true := by
    intro b hb
    rw [mem_sortByDate] at hb
    rw [bookmarksToAdd, List.mem_filter] at hb
    rcases Bool.and_eq_true .. ▸ hb.2 with ⟨hb1, hb2⟩
    rcases Bool.and_eq_true .. ▸ hb1 with ⟨hb3, hb4⟩
    exact ⟨beq_iff_eq.mp hb3, hb4⟩
  obtain ⟨hs1, hops1, hiff1⟩ := mergeLoop (sortByDate (bookmarksToAdd c (filterSystem R)))
    ⟨c, [], baseFolderMapping, []⟩ hshape hel
  have heq : firstSync tok { ok := rok, body := some (some R) } c =
      ((syncBookmarksToApi tok ((sortByDate (bookmarksToAdd c (filterSystem R))).foldl
          firstSyncMergeItem ⟨c, [], baseFolderMapping, []⟩)).chrome,
        (syncBookmarksToApi tok ((sortByDate (bookmarksToAdd c (filterSystem R))).foldl
          firstSyncMergeItem ⟨c, [], baseFolderMapping, []⟩)).ops) := by
    unfold firstSync firstSyncPromise firstSyncBody
    simp [ht, hne]
  constructor
  · rw [heq]
    show (syncBookmarksToApi tok _).ops = _
    rw [syncBookmarksToApi, if_pos ht, hops1]
    simp
  · intro u
    rw [heq]
    show hasBmUrl (getExistingChromeBookmarks (syncBookmarksToApi tok _).chrome) u ↔ _
    rw [show ∀ st : RunSt, (syncBookmarksToApi tok st).chrome = st.chrome from
      fun st => by rw [syncBookmarksToApi, if_pos ht]]
    rw [hiff1 u]
    show hasBmUrl (getExistingChromeBookmarks c) u ∨ _ ↔ _
    constructor
    · rintro (h | ⟨b, hb, hu2⟩)
      · exact Or.inl h
      · rw [mem_sortByDate] at hb
        rw [bookmarksToAdd, List.mem_filter] at hb
        rcases Bool.and_eq_true .. ▸ hb.2 with ⟨hb1, hb2⟩
        rcases Bool.and_eq_true .. ▸ hb1 with ⟨hb3, hb4⟩
        exact Or.inr ⟨b, hb.1, beq_iff_eq.mp hb3, hu2.1, hu2.2⟩
    · rintro (h | ⟨b, hb, hbt, hbu, hbn⟩)
      · exact Or.inl h
      · by_cases hcu : u ∈ existingUrlsOf c
        · exact Or.inl ((mem_existingUrlsOf c u).mp hcu)
        · refine Or.inr ⟨b, ?_, hbu, hbn⟩
          rw [mem_sortByDate, bookmarksToAdd, List.mem_filter]
          refine ⟨hb, ?_⟩
          have h1 : (b.type == NodeType.bookmark) = true := beq_iff_eq.mpr hbt
          have h2 : truthyS b.url = true := by
            rw [hbu]
            simpa [truthyS] using hbn
          have h3 : ((existingUrlsOf c).contains (b.url.getD "")) = false := by
            rw [hbu]
            show (existingUrlsOf c).contains u = false
            cases hcontains : (existingUrlsOf c).contains u
            · rfl
            · exact absurd (List.mem_of_elem_eq_true hcontains) hcu
          rw [h1, h2, h3]
          rfl

/-- A profile with one pre-existing local bookmark. -/
def c5wChrome : Chrome :=
  { root := .node "0" "" none none
      [.node "1" "Bookmarks bar" none none
        [.node "30" "old" (some "https://old.test/x") none []],
       .node "2" "Other bookmarks" none none []],
    nextId := 100 }

/-- A remote set holding one new url and one already-present url. -/
def c5wRemote : List BookmarkNode :=
  [mkBm "r1" "https://new.test" "N" (some "1") 5,
   mkBm "r2" "https://old.test/x" "Old" (some "1") 3]

/-- C5 witness: only the new url is created, under the first fixed root,
followed by the push. -/
theorem C5_witness :
    (firstSync (some "token") { ok := true, body := some (some c5wRemote) } c5wChrome).2 =
      [Op.create "1" "N" (some "https://new.test"), Op.push] := by
  have h := (C5_theorem (some "token") true c5wChrome c5wRemote
    ⟨"", none, none, "Bookmarks bar", none, none,
      [.node "30" "old" (some "https://old.test/x") none []],
      "Other bookmarks", none, none, [], rfl, by decide, by decide⟩
    rfl rfl).1
  exact h.trans (by rfl)

/-! Claim C1: idempotence of fullSync. -/

/-- The remote set against claim C1: one folder and one bookmark in it. -/
def c1Remote : List BookmarkNode :=
  [mkFo "f1" "Work" (some "1") 5, mkBm "b1" "https://x.test" "Site" (some "f1") 10]

/-- The response carrying c1Remote. -/
def c1Resp : ApiResponse := { ok := true, body := some (some c1Remote) }

/-- A well-formed store of the initial shape with the given child forests. -/
def mkRoot (bs1 bs2 : List BTree) : BTree :=
  .node "0" "" none none
    [.node "1" "Bookmarks bar" none none bs1, .node "2" "Other bookmarks" none none bs2]

/-- A created leaf matches the remote item it was created from. -/
def leafCorr (t : BTree) (it : BookmarkNode) : Prop :=
  ∃ i, isSystemId i = false ∧ t = BTree.node i (jsOr it.title "") it.url none [] ∧
    truthyS it.url = true

/-- Leaf-forest correspondence to a list of remote items. -/
def Corr (bs : List BTree) (its : List BookmarkNode) : Prop := List.Forall₂ leafCorr bs its

/-- A flattened entry matches the remote item it was created from, under
the fixed root r. -/
def entryCorr (r : String) (e : BookmarkNode) (it : BookmarkNode) : Prop :=
  e.type = NodeType.bookmark ∧ e.title = jsOr it.title "" ∧ e.url = it.url ∧
    e.parentId = some r ∧ truthyS e.url = true

/-- The items of a run that end up under the fixed root r. -/
def pcFilter (r : String) (l : List BookmarkNode) : List BookmarkNode :=
  l.filter (fun it => truthyS it.url &&
    (resolveParentChromeId baseFolderMapping it.parentId == r))

theorem forall₂_mem_right {α β : Type} {R : α → β → Prop} :
    ∀ {as : List α} {bs : List β}, List.Forall₂ R as bs → ∀ b ∈ bs, ∃ a ∈ as, R a b := by
  intro as bs h
  induction h with
  | nil => intro b hb; simp at hb
  | cons hr hrest ih =>
    intro b hb
    rcases List.mem_cons.mp hb with rfl | hb
    · exact ⟨_, List.mem_cons_self _ _, hr⟩
    · obtain ⟨a, ha, har⟩ := ih b hb
      exact ⟨a, List.mem_cons_of_mem _ ha, har⟩

theorem forall₂_map_eq {α β γ : Type} {R : α → β → Prop} (f : α → γ) (g : β → γ) :
    ∀ {as : List α} {bs : List β}, List.Forall₂ R as bs →
      (∀ a b, R a b → f a = g b) → as.map f = bs.map g := by
  intro as bs h hfg
  induction h with
  | nil => rfl
  | cons hr hrest ih => simp [hfg _ _ hr, ih]

theorem corr_bfNoSys (bs : List BTree) (its : List BookmarkNode) (h : Corr bs its) :
    bfNoSys bs = true := by
  induction h with
  | nil => rfl
  | cons hr hrest ih =>
    obtain ⟨i, hi, rfl, htr⟩ := hr
    rw [bfNoSys, btNoSys, hi]
    simpa [bfNoSys] using ih

theorem trav_corr (r : String) (bs : List BTree) (its : List BookmarkNode)
    (h : Corr bs its) :
    List.Forall₂ (entryCorr r) (traverseForest (some r) bs) its := by
  induction h with
  | nil => exact List.Forall₂.nil
  | cons hr hrest ih =>
    obtain ⟨i, hi, rfl, htr⟩ := hr
    rw [traverseForest, traverseNode, if_neg (by simp [hi]), if_pos htr]
    rw [List.singleton_append]
    exact List.Forall₂.cons ⟨rfl, rfl, rfl, rfl, htr⟩ ih

theorem ensureFull_bookmark_env (nm : JsMap BookmarkNode) (ex : List BookmarkNode)
    (hnm : ∀ k v, mapGet nm k = some v → v.type ≠ NodeType.folder)
    (fuel : Nat) (item : BookmarkNode) (st : RunSt) :
    ensureParentExistsFull nm ex (fuel + 1) item st = (.ok true, st) := by
  cases hip : item.parentId with
  | none => simp [ensureParentExistsFull, hip]
  | some pid =>
    by_cases hc : (pid == "" || pid == "1" || pid == "2") = true
    · simp only [ensureParentExistsFull, hip]
      rw [if_pos hc]
    · by_cases hm : mapHas st.folderMapping pid = true
      · simp only [ensureParentExistsFull, hip]
        rw [if_neg hc, if_pos hm]
      · cases hg : mapGet nm pid with
        | none =>
          simp only [ensureParentExistsFull, hip, hg]
          rw [if_neg hc, if_neg hm]
        | some pf =>
          have hpf : (pf.type != NodeType.folder) = true := by
            simp [hnm pid pf hg]
          simp only [ensureParentExistsFull, hip, hg]
          rw [if_neg hc, if_neg hm, if_pos hpf]

theorem run1_create (bs1 bs2 : List BTree) (n : Nat) (ttl : String) (url : Option String)
    (hb1 : bfNoSys bs1 = true) (hb2 : bfNoSys bs2 = true) (pc : String) :
    (pc = "1" →
      chromeCreate ⟨mkRoot bs1 bs2, n⟩ "1" ttl url =
        some ("c" ++ toString n,
          ⟨mkRoot (bs1 ++ [.node ("c" ++ toString n) ttl url none []]) bs2, n + 1⟩)) ∧
    (pc = "2" →
      chromeCreate ⟨mkRoot bs1 bs2, n⟩ "2" ttl url =
        some ("c" ++ toString n,
          ⟨mkRoot bs1 (bs2 ++ [.node ("c" ++ toString n) ttl url none []]), n + 1⟩)) := by
  constructor
  · intro hpc
    have hhas : btHasId "1" (mkRoot bs1 bs2) = true := by
      rw [mkRoot, btHasId, bfHasId, btHasId]
      simp
    rw [chromeCreate]
    simp only [hhas, if_true]
    show some _ = _
    rw [mkRoot, btAppendChild, if_neg (by decide)]
    rw [bfAppendChild, btAppendChild, if_pos (by rfl)]
    rw [bfAppendChild, btAppendChild, if_neg (by decide)]
    rw [bfAppendChild, bfAppendChild_noop "1" (by decide) _ bs2 hb2]
    rfl
  · intro hpc
    have hhas : btHasId "2" (mkRoot bs1 bs2) = true := by
      rw [mkRoot, btHasId, bfHasId, btHasId, bfHasId, btHasId]
      simp
    rw [chromeCreate]
    simp only [hhas, if_true]
    show some _ = _
    rw [mkRoot, btAppendChild, if_neg (by decide)]
    rw [bfAppendChild, btAppendChild, if_neg (by decide)]
    rw [bfAppendChild_noop "2" (by decide) _ bs1 hb1]
    rw [bfAppendChild, btAppendChild, if_pos (by rfl)]
    rw [bfAppendChild]
    rfl

theorem pcFilter_cons_pos (r : String) (x : BookmarkNode) (xs : List BookmarkNode)
    (h : (truthyS x.url && (resolveParentChromeId baseFolderMapping x.parentId == r)) = true) :
    pcFilter r (x :: xs) = x :: pcFilter r xs := by
  rw [pcFilter, List.filter_cons, if_pos h]
  rfl

theorem pcFilter_cons_neg (r : String) (x : BookmarkNode) (xs : List BookmarkNode)
    (h : (truthyS x.url && (resolveParentChromeId baseFolderMapping x.parentId == r)) = false) :
    pcFilter r (x :: xs) = pcFilter r xs := by
  rw [pcFilter, List.filter_cons, if_neg (by simp [h])]
  rfl

theorem run1Loop (nm : JsMap BookmarkNode)
    (hnm : ∀ k v, mapGet nm k = some v → v.type ≠ NodeType.folder) (fuel : Nat) :
    ∀ (l : List BookmarkNode), (∀ x ∈ l, x.type = NodeType.bookmark) →
      ∀ (st : RunSt) (bs1 bs2 : List BTree) (its1 its2 : List BookmarkNode) (n : Nat),
        st.chrome = ⟨mkRoot bs1 bs2, n⟩ → st.folderMapping = baseFolderMapping →
        Corr bs1 its1 → Corr bs2 its2 →
        ∃ bs1' bs2' n',
          (l.foldl (fullSyncItem nm [] [] (fuel + 1)) st).chrome = ⟨mkRoot bs1' bs2', n'⟩ ∧
          (l.foldl (fullSyncItem nm [] [] (fuel + 1)) st).folderMapping = baseFolderMapping ∧
          Corr bs1' (its1 ++ pcFilter "1" l) ∧ Corr bs2' (its2 ++ pcFilter "2" l) := by
  intro l
  induction l with
  | nil =>
    intro hl st bs1 bs2 its1 its2 n hcm hfm hc1 hc2
    exact ⟨bs1, bs2, n, hcm, hfm, by simpa [pcFilter] using hc1, by simpa [pcFilter] using hc2⟩
  | cons x xs ih =>
    intro hl st bs1 bs2 its1 its2 n hcm hfm hc1 hc2
    have hxt : x.type = NodeType.bookmark := hl x (List.mem_cons_self x xs)
    have hens := ensureFull_bookmark_env nm [] hnm fuel x st
    rw [List.foldl_cons]
    by_cases ht : truthyS x.url = true
    · have hget : mapGet ([] : JsMap BookmarkNode) (x.url.getD "") = none := rfl
      rcases resolveParentChromeId_base_cases x.parentId with hpc | hpc
      · have hcr := (run1_create bs1 bs2 n (jsOr x.title "") x.url
          (corr_bfNoSys _ _ hc1) (corr_bfNoSys _ _ hc2) "1").1 rfl
        have hstep : fullSyncItem nm [] [] (fuel + 1) st x =
            ⟨⟨mkRoot (bs1 ++ [.node ("c" ++ toString n) (jsOr x.title "") x.url none []]) bs2,
              n + 1⟩,
              st.ops ++ [Op.create "1" (jsOr x.title "") x.url],
              st.folderMapping, st.processedItems⟩ := by
          unfold fullSyncItem
          simp only [hens, hxt, ht, if_true, hget]
          rw [hfm, hpc]
          unfold doCreate
          rw [hcm, hcr]
          simp [hfm]
        rw [hstep]
        have hc1' : Corr (bs1 ++ [.node ("c" ++ toString n) (jsOr x.title "") x.url none []])
            (its1 ++ [x]) := by
          exact List.rel_append hc1
            (List.Forall₂.cons ⟨"c" ++ toString n, cid_not_sys _, rfl, ht⟩ List.Forall₂.nil)
        obtain ⟨bs1', bs2', n', h1, h2, h3, h4⟩ := ih
          (fun y hy => hl y (List.mem_cons_of_mem x hy))
          ⟨⟨mkRoot (bs1 ++ [.node ("c" ++ toString n) (jsOr x.title "") x.url none []]) bs2,
            n + 1⟩,
            st.ops ++ [Op.create "1" (jsOr x.title "") x.url],
            st.folderMapping, st.processedItems⟩
          (bs1 ++ [.node ("c" ++ toString n) (jsOr x.title "") x.url none []]) bs2
          (its1 ++ [x]) its2 (n + 1) rfl hfm hc1' hc2
        refine ⟨bs1', bs2', n', h1, h2, ?_, ?_⟩
        · rw [pcFilter_cons_pos "1" x xs (by rw [ht, hpc]; rfl)]
          rw [show its1 ++ x :: pcFilter "1" xs = (its1 ++ [x]) ++ pcFilter "1" xs by simp]
          exact h3
        · rw [pcFilter_cons_neg "2" x xs (by rw [ht, hpc]; rfl)]
          exact h4
      · have hcr := (run1_create bs1 bs2 n (jsOr x.title "") x.url
          (corr_bfNoSys _ _ hc1) (corr_bfNoSys _ _ hc2) "2").2 rfl
        have hstep : fullSyncItem nm [] [] (fuel + 1) st x =
            ⟨⟨mkRoot bs1 (bs2 ++ [.node ("c" ++ toString n) (jsOr x.title "") x.url none []]),
              n + 1⟩,
              st.ops ++ [Op.create "2" (jsOr x.title "") x.url],
              st.folderMapping, st.processedItems⟩ := by
          unfold fullSyncItem
          simp only [hens, hxt, ht, if_true, hget]
          rw [hfm, hpc]
          unfold doCreate
          rw [hcm, hcr]
          simp [hfm]
        rw [hstep]
        have hc2' : Corr (bs2 ++ [.node ("c" ++ toString n) (jsOr x.title "") x.url none []])
            (its2 ++ [x]) := by
          exact List.rel_append hc2
            (List.Forall₂.cons ⟨"c" ++ toString n, cid_not_sys _, rfl, ht⟩ List.Forall₂.nil)
        obtain ⟨bs1', bs2', n', h1, h2, h3, h4⟩ := ih
          (fun y hy => hl y (List.mem_cons_of_mem x hy))
          ⟨⟨mkRoot bs1 (bs2 ++ [.node ("c" ++ toString n) (jsOr x.title "") x.url none []]),
            n + 1⟩,
            st.ops ++ [Op.create "2" (jsOr x.title "") x.url],
            st.folderMapping, st.processedItems⟩
          bs1 (bs2 ++ [.node ("c" ++ toString n) (jsOr x.title "") x.url none []])
          its1 (its2 ++ [x]) (n + 1) rfl hfm hc1 hc2'
        refine ⟨bs1', bs2', n', h1, h2, ?_, ?_⟩
        · rw [pcFilter_cons_neg "1" x xs (by rw [ht, hpc]; rfl)]
          exact h3
        · rw [pcFilter_cons_pos "2" x xs (by rw [ht, hpc]; rfl)]
          rw [show its2 ++ x :: pcFilter "2" xs = (its2 ++ [x]) ++ pcFilter "2" xs by simp]
          exact h4
    · have hstep : fullSyncItem nm [] [] (fuel + 1) st x = st := by
        unfold fullSyncItem
        simp only [hens, hxt]
        rw [if_neg ht]
      rw [hstep]
      obtain ⟨bs1', bs2', n', h1, h2, h3, h4⟩ := ih
        (fun y hy => hl y (List.mem_cons_of_mem x hy)) st bs1 bs2 its1 its2 n hcm hfm hc1 hc2
      have htf : truthyS x.url = false := by
        cases hq : truthyS x.url
        · rfl
        · exact absurd hq ht
      refine ⟨bs1', bs2', n', h1, h2, ?_, ?_⟩
      · rw [pcFilter_cons_neg "1" x xs (by rw [htf]; rfl)]
        exact h3
      · rw [pcFilter_cons_neg "2" x xs (by rw [htf]; rfl)]
        exact h4

theorem buildFolderMap_no_folders (l : List BookmarkNode)
    (h : ∀ e ∈ l, e.type ≠ NodeType.folder) : buildFolderMap l = [] := by
  have aux : ∀ (l' : List BookmarkNode), (∀ e ∈ l', e.type ≠ NodeType.folder) →
      ∀ m0 : JsMap BookmarkNode,
        l'.foldl (fun m b => if b.type == NodeType.folder then mapSet m b.id b else m) m0 = m0 := by
    intro l'
    induction l' with
    | nil => intro _ m0; rfl
    | cons b bs ih =>
      intro hb m0
      rw [List.foldl_cons, if_neg (by simp [hb b (List.mem_cons_self b bs)])]
      exact ih (fun e he => hb e (List.mem_cons_of_mem b he)) m0
  exact aux l h []

theorem mapHas_fold_mono (k : String) :
    ∀ (l : List BookmarkNode) (m0 : JsMap BookmarkNode), mapHas m0 k = true →
      mapHas (l.foldl (fun m b =>
        if b.type == NodeType.bookmark && truthyS b.url then mapSet m (b.url.getD "") b
        else m) m0) k = true := by
  intro l
  induction l with
  | nil => intro m0 h; exact h
  | cons b bs ih =>
    intro m0 h
    rw [List.foldl_cons]
    by_cases hb : (b.type == NodeType.bookmark && truthyS b.url) = true
    · rw [if_pos hb]
      refine ih _ ?_
      rw [mapHas, mapGet_mapSet]
      by_cases hk : b.url.getD "" = k
      · rw [if_pos hk]
        rfl
      · rw [if_neg hk]
        exact h
    · rw [if_neg hb]
      exact ih _ h

theorem mapHas_buildUrlMap_of_mem (l : List BookmarkNode) (b : BookmarkNode)
    (hb : b ∈ l) (ht : b.type = NodeType.bookmark) (hu : truthyS b.url = true) :
    mapHas (buildUrlMap l) (b.url.getD "") = true := by
  have aux : ∀ (l' : List BookmarkNode) (m0 : JsMap BookmarkNode), b ∈ l' →
      mapHas (l'.foldl (fun m b =>
        if b.type == NodeType.bookmark && truthyS b.url then mapSet m (b.url.getD "") b
        else m) m0) (b.url.getD "") = true := by
    intro l'
    induction l' with
    | nil => intro m0 h; simp at h
    | cons x xs ih =>
      intro m0 hmem
      rcases List.mem_cons.mp hmem with rfl | hmem
      · rw [List.foldl_cons, if_pos (by simp [ht, hu])]
        refine mapHas_fold_mono _ xs _ ?_
        rw [mapHas, mapGet_mapSet, if_pos rfl]
        rfl
      · rw [List.foldl_cons]
        exact ih _ hmem
  exact aux l [] hb

theorem mapGet_urlFold_last (k : String) (e : BookmarkNode) :
    ∀ (l : List BookmarkNode) (m0 : JsMap BookmarkNode),
      (∀ b ∈ l, b.type = NodeType.bookmark → truthyS b.url = true → b.url.getD "" = k → b = e) →
      (mapGet m0 k = some e ∨
        ∃ b ∈ l, b.type = NodeType.bookmark ∧ truthyS b.url = true ∧ b.url.getD "" = k) →
      mapGet (l.foldl (fun m b =>
        if b.type == NodeType.bookmark && truthyS b.url then mapSet m (b.url.getD "") b
        else m) m0) k = some e := by
  intro l
  induction l with
  | nil =>
    intro m0 _ hd
    rcases hd with hd | ⟨b, hb, _⟩
    · exact hd
    · simp at hb
  | cons x xs ih =>
    intro m0 huniq hd
    rw [List.foldl_cons]
    by_cases hx : (x.type == NodeType.bookmark && truthyS x.url) = true
    · have hx' := hx
      rw [Bool.and_eq_true] at hx'
      obtain ⟨hx1, hx2⟩ := hx'
      rw [if_pos hx]
      by_cases hk : x.url.getD "" = k
      · have hxe : x = e :=
          huniq x (List.mem_cons_self x xs) (beq_iff_eq.mp hx1) hx2 hk
        refine ih _ (fun b hb => huniq b (List.mem_cons_of_mem x hb)) (Or.inl ?_)
        rw [mapGet_mapSet, if_pos hk, hxe]
      · refine ih _ (fun b hb => huniq b (List.mem_cons_of_mem x hb)) ?_
        rcases hd with hm | ⟨b, hbmem, hbt, hbu, hbk⟩
        · exact Or.inl (by rw [mapGet_mapSet, if_neg hk]; exact hm)
        · rcases List.mem_cons.mp hbmem with rfl | hbmem
          · exact absurd hbk hk
          · exact Or.inr ⟨b, hbmem, hbt, hbu, hbk⟩
    · rw [if_neg hx]
      refine ih _ (fun b hb => huniq b (List.mem_cons_of_mem x hb)) ?_
      rcases hd with hm | ⟨b, hbmem, hbt, hbu, hbk⟩
      · exact Or.inl hm
      · rcases List.mem_cons.mp hbmem with rfl | hbmem
        · exact absurd (show (b.type == NodeType.bookmark && truthyS b.url) = true by
            simp [hbt, hbu]) hx
        · exact Or.inr ⟨b, hbmem, hbt, hbu, hbk⟩

theorem mapGet_nodeFold_mem (l : List BookmarkNode) :
    ∀ (m0 : JsMap BookmarkNode) (k : String) (v : BookmarkNode),
      mapGet (l.foldl (fun m n => mapSet m n.id n) m0) k = some v →
      v ∈ l ∨ mapGet m0 k = some v := by
  induction l with
  | nil => intro m0 k v h; exact Or.inr h
  | cons x xs ih =>
    intro m0 k v h
    rw [List.foldl_cons] at h
    rcases ih _ k v h with hm | hm
    · exact Or.inl (List.mem_cons_of_mem x hm)
    · rw [mapGet_mapSet] at hm
      by_cases hk : x.id = k
      · rw [if_pos hk] at hm
        obtain rfl := Option.some.inj hm
        exact Or.inl (List.mem_cons_self x xs)
      · rw [if_neg hk] at hm
        exact Or.inr hm

theorem buildNodeMap_mem (l : List BookmarkNode) (k : String) (v : BookmarkNode)
    (h : mapGet (buildNodeMap l) k = some v) : v ∈ l := by
  rcases mapGet_nodeFold_mem l [] k v h with hm | hm
  · exact hm
  · exact absurd hm (by simp [mapGet])

theorem run2_item_id (nm : JsMap BookmarkNode) (ex : List BookmarkNode)
    (exU : JsMap BookmarkNode) (fuel : Nat) (st : RunSt) (item : BookmarkNode)
    (hnm : ∀ k v, mapGet nm k = some v → v.type ≠ NodeType.folder)
    (hxt : item.type = NodeType.bookmark)
    (hfm : st.folderMapping = baseFolderMapping)
    (hmatch : truthyS item.url = true →
      ∃ e, mapGet exU (item.url.getD "") = some e ∧ e.title = jsOr item.title "" ∧
        e.parentId = some (resolveParentChromeId baseFolderMapping item.parentId)) :
    fullSyncItem nm ex exU (fuel + 1) st item = st := by
  have hens := ensureFull_bookmark_env nm ex hnm fuel item st
  unfold fullSyncItem
  simp only [hens, hxt]
  by_cases ht : truthyS item.url = true
  · obtain ⟨e, he, het, hep⟩ := hmatch ht
    simp only [ht, if_true, he]
    rw [hfm, het, hep]
    simp

  · rw [if_neg ht]

theorem run2Loop_fixed (nm : JsMap BookmarkNode) (ex : List BookmarkNode)
    (exU : JsMap BookmarkNode) (fuel : Nat) (l : List BookmarkNode)
    (hnm : ∀ k v, mapGet nm k = some v → v.type ≠ NodeType.folder)
    (hl : ∀ x ∈ l, x.type = NodeType.bookmark) (st : RunSt)
    (hfm : st.folderMapping = baseFolderMapping)
    (hmatch : ∀ item ∈ l, truthyS item.url = true →
      ∃ e, mapGet exU (item.url.getD "") = some e ∧ e.title = jsOr item.title "" ∧
        e.parentId = some (resolveParentChromeId baseFolderMapping item.parentId)) :
    l.foldl (fullSyncItem nm ex exU (fuel + 1)) st = st :=
  foldl_fixed _ l st (fun a ha =>
    run2_item_id nm ex exU fuel st a hnm (hl a ha) hfm (hmatch a ha))

theorem removeBookmarksPass_fixed (api exm : JsMap BookmarkNode) (st : RunSt)
    (h : ∀ p ∈ exm, mapHas api p.1 = true) :
    removeBookmarksPass api exm st = st := by
  unfold removeBookmarksPass
  exact foldl_fixed _ _ _ (fun p hp => by rw [if_pos (h p hp)])

theorem forall₂_mem_left {α β : Type} {R : α → β → Prop} :
    ∀ {as : List α} {bs : List β}, List.Forall₂ R as bs → ∀ a ∈ as, ∃ b ∈ bs, R a b := by
  intro as bs h
  induction h with
  | nil => intro a ha; simp at ha
  | cons hr hrest ih =>
    intro a ha
    rcases List.mem_cons.mp ha with rfl | ha
    · exact ⟨_, List.mem_cons_self _ _, hr⟩
    · obtain ⟨b, hb, hbr⟩ := ih a ha
      exact ⟨b, List.mem_cons_of_mem _ hb, hbr⟩

theorem pcFilter_split_perm (l : List BookmarkNode) :
    List.Perm (pcFilter "1" l ++ pcFilter "2" l) (l.filter (fun it => truthyS it.url)) := by
  have h1 : pcFilter "1" l = (l.filter (fun it => truthyS it.url)).filter
      (fun it => resolveParentChromeId baseFolderMapping it.parentId == "1") := by
    rw [List.filter_filter, pcFilter]
    exact (List.filter_congr (fun x _ => Bool.and_comm _ _)).symm
  have h2 : pcFilter "2" l = (l.filter (fun it => truthyS it.url)).filter
      (fun it => !(resolveParentChromeId baseFolderMapping it.parentId == "1")) := by
    rw [List.filter_filter, pcFilter]
    refine List.filter_congr (fun x _ => ?_)
    rcases resolveParentChromeId_base_cases x.parentId with hpc | hpc <;>
      rw [hpc] <;> simp
  rw [h1, h2]
  exact List.filter_append_perm _ _

theorem pcFilter_keys_nodup (R : List BookmarkNode)
    (hb : ∀ r ∈ R, r.type = NodeType.bookmark)
    (hnd : ((R.filter (fun b => b.type == NodeType.bookmark && truthyS b.url)).map
      (fun b => b.url.getD "")).Nodup) :
    ((pcFilter "1" (sortByDate (filterSystem R)) ++
      pcFilter "2" (sortByDate (filterSystem R))).map (fun b => b.url.getD "")).Nodup := by
  have hR : R.filter (fun b => b.type == NodeType.bookmark && truthyS b.url) =
      R.filter (fun b => truthyS b.url) :=
    List.filter_congr (fun x hx => by rw [hb x hx]; simp)
  rw [hR] at hnd
  have hFS : (filterSystem R).filter (fun it => truthyS it.url) =
      (R.filter (fun b => truthyS b.url)).filter (fun n => !(isSystemId n.id)) := by
    rw [filterSystem, List.filter_filter, List.filter_filter]
    exact List.filter_congr (fun x _ => Bool.and_comm _ _)
  have hsub : ((filterSystem R).filter (fun it => truthyS it.url)).Sublist
      (R.filter (fun b => truthyS b.url)) := by
    rw [hFS]
    exact List.filter_sublist _
  have hnd2 : (((filterSystem R).filter (fun it => truthyS it.url)).map
      (fun b => b.url.getD "")).Nodup :=
    (hsub.map (fun b => b.url.getD "")).nodup hnd
  have hpermF : List.Perm ((sortByDate (filterSystem R)).filter (fun it => truthyS it.url))
      ((filterSystem R).filter (fun it => truthyS it.url)) :=
    (sortByDate_perm (filterSystem R)).filter _
  have hnd3 : (((sortByDate (filterSystem R)).filter (fun it => truthyS it.url)).map
      (fun b => b.url.getD "")).Nodup :=
    (hpermF.map (fun b => b.url.getD "")).symm.nodup hnd2
  exact ((pcFilter_split_perm (sortByDate (filterSystem R))).map
    (fun b => b.url.getD "")).symm.nodup hnd3

/-- C1 counterexample: with a remote set holding one folder and one
bookmark inside it, the first fullSync run from the empty profile creates
both, but the second run with the unchanged remote set issues a removeTree
of the folder the first run created: local folder ids are Chrome-assigned
and never match remote ids, so the folder deletion pass of the second run
fires. The second run is not mutation-free, refuting idempotence. -/
theorem C1_counterexample :
    (fullSync (some "t") c1Resp (fullSync (some "t") c1Resp initialChrome).1).2 =
      [Op.removeTree "c3"] := by rfl

/-- C1 (corrected): the two-run no-op guarantee holds on the folder-free
fragment. For every token, and every remote node set consisting only of
bookmark nodes whose truthy urls are pairwise distinct, running fullSync
twice from the empty profile issues no call at all on the second run. With
remote folders present the guarantee fails (see the counterexample): the
folder pass of the second run deletes the first run's folders. -/
theorem C1_amended (tok : Option String) (R : List BookmarkNode)
    (hb : ∀ r ∈ R, r.type = NodeType.bookmark)
    (hnd : ((R.filter (fun b => b.type == NodeType.bookmark && truthyS b.url)).map
      (fun b => b.url.getD "")).Nodup) :
    (fullSync tok { ok := true, body := some (some R) }
      (fullSync tok { ok := true, body := some (some R) } initialChrome).1).2 = [] := by
  by_cases ht : truthyS tok = true
  case neg =>
    have hops : ∀ c, fullSync tok { ok := true, body := some (some R) } c = (c, []) := by
      intro c
      unfold fullSync fullSyncPromise fullSyncBody
      simp [ht]
    simp only [hops]
  case pos =>
  by_cases hfe : (filterSystem R).isEmpty = true
  case pos =>
    have hops : ∀ c, fullSync tok { ok := true, body := some (some R) } c = (c, []) := by
      intro c
      unfold fullSync fullSyncPromise fullSyncBody
      simp [ht, hfe]
    simp only [hops]
  case neg =>
  have hbF : ∀ x ∈ filterSystem R, x.type = NodeType.bookmark :=
    fun x hx => hb x (List.mem_of_mem_filter hx)
  have hnmF : ∀ k v, mapGet (buildNodeMap (filterSystem R)) k = some v →
      v.type ≠ NodeType.folder := by
    intro k v hv
    rw [hbF v (buildNodeMap_mem _ k v hv)]
    simp
  have hsorted_b : ∀ x ∈ sortByDate (filterSystem R), x.type = NodeType.bookmark :=
    fun x hx => hbF x ((mem_sortByDate x _).mp hx)
  have hex0 : getExistingChromeBookmarks initialChrome = [] := rfl
  have hbu0 : buildUrlMap ([] : List BookmarkNode) = [] := rfl
  have hbf0 : buildFolderMap ([] : List BookmarkNode) = [] := rfl
  have hrb0 : ∀ (api : JsMap BookmarkNode) (st : RunSt),
      removeBookmarksPass api [] st = st := fun _ _ => rfl
  have hrf0 : ∀ (api : JsMap BookmarkNode) (st : RunSt),
      removeFoldersPass api [] st = st := fun _ _ => rfl
  have heq1 : fullSync tok { ok := true, body := some (some R) } initialChrome =
      (((sortByDate (filterSystem R)).foldl
          (fullSyncItem (buildNodeMap (filterSystem R)) [] []
            ((filterSystem R).length + 2))
          ⟨initialChrome, [], baseFolderMapping, []⟩).chrome,
        ((sortByDate (filterSystem R)).foldl
          (fullSyncItem (buildNodeMap (filterSystem R)) [] []
            ((filterSystem R).length + 2))
          ⟨initialChrome, [], baseFolderMapping, []⟩).ops) := by
    unfold fullSync fullSyncPromise fullSyncBody
    simp [ht, hfe, hex0, hbu0, hbf0, hrb0, hrf0]
  obtain ⟨bs1', bs2', n', hchrome, hmap, hc1, hc2⟩ :=
    run1Loop (buildNodeMap (filterSystem R)) hnmF ((filterSystem R).length + 1)
      (sortByDate (filterSystem R)) hsorted_b
      ⟨initialChrome, [], baseFolderMapping, []⟩ [] [] [] [] 3 rfl rfl
      List.Forall₂.nil List.Forall₂.nil
  have hchrome' : (((sortByDate (filterSystem R)).foldl
      (fullSyncItem (buildNodeMap (filterSystem R)) [] []
        ((filterSystem R).length + 2))
      ⟨initialChrome, [], baseFolderMapping, []⟩) : RunSt).chrome =
      ⟨mkRoot bs1' bs2', n'⟩ := hchrome
  rw [List.nil_append] at hc1 hc2
  rw [heq1]
  simp only
  rw [hchrome']
  have hcorr1 : List.Forall₂ (entryCorr "1") (traverseForest (some "1") bs1')
      (pcFilter "1" (sortByDate (filterSystem R))) := trav_corr "1" bs1' _ hc1
  have hcorr2 : List.Forall₂ (entryCorr "2") (traverseForest (some "2") bs2')
      (pcFilter "2" (sortByDate (filterSystem R))) := trav_corr "2" bs2' _ hc2
  have hEsplit : getExistingChromeBookmarks ⟨mkRoot bs1' bs2', n'⟩ =
      traverseForest (some "1") bs1' ++ traverseForest (some "2") bs2' :=
    flatten_shape n' "" none none "Bookmarks bar" none none bs1'
      "Other bookmarks" none none bs2'
  have hEprops : ∀ e ∈ traverseForest (some "1") bs1' ++ traverseForest (some "2") bs2',
      e.type = NodeType.bookmark ∧ truthyS e.url = true := by
    intro e he
    rcases List.mem_append.mp he with he | he
    · obtain ⟨it, hit, hety, _, _, _, hetru⟩ := forall₂_mem_left hcorr1 e he
      exact ⟨hety, hetru⟩
    · obtain ⟨it, hit, hety, _, _, _, hetru⟩ := forall₂_mem_left hcorr2 e he
      exact ⟨hety, hetru⟩
  have hkeys : ((traverseForest (some "1") bs1' ++ traverseForest (some "2") bs2').map
      (fun b => b.url.getD "")).Nodup := by
    have hmapeq : (traverseForest (some "1") bs1' ++ traverseForest (some "2") bs2').map
        (fun b => b.url.getD "") =
        (pcFilter "1" (sortByDate (filterSystem R)) ++
          pcFilter "2" (sortByDate (filterSystem R))).map (fun b => b.url.getD "") := by
      rw [List.map_append, List.map_append]
      rw [forall₂_map_eq (fun b => b.url.getD "") (fun b => b.url.getD "") hcorr1
        (fun a b hab => by show a.url.getD "" = b.url.getD ""; rw [hab.2.2.1])]
      rw [forall₂_map_eq (fun b => b.url.getD "") (fun b => b.url.getD "") hcorr2
        (fun a b hab => by show a.url.getD "" = b.url.getD ""; rw [hab.2.2.1])]
    rw [hmapeq]
    exact pcFilter_keys_nodup R hb hnd
  have heq2 : (fullSync tok { ok := true, body := some (some R) }
      (⟨mkRoot bs1' bs2', n'⟩ : Chrome)).2 =
      ((sortByDate (filterSystem R)).foldl
        (fullSyncItem (buildNodeMap (filterSystem R))
          (getExistingChromeBookmarks ⟨mkRoot bs1' bs2', n'⟩)
          (buildUrlMap (getExistingChromeBookmarks ⟨mkRoot bs1' bs2', n'⟩))
          ((filterSystem R).length + 2))
        (removeFoldersPass (buildFolderMap (filterSystem R))
          (buildFolderMap (getExistingChromeBookmarks ⟨mkRoot bs1' bs2', n'⟩))
          (removeBookmarksPass (buildUrlMap (filterSystem R))
            (buildUrlMap (getExistingChromeBookmarks ⟨mkRoot bs1' bs2', n'⟩))
            ⟨⟨mkRoot bs1' bs2', n'⟩, [], baseFolderMapping, []⟩))).ops := by
    unfold fullSync fullSyncPromise fullSyncBody
    simp [ht, hfe]
  rw [heq2, hEsplit]
  have hrbFix : removeBookmarksPass (buildUrlMap (filterSystem R))
      (buildUrlMap (traverseForest (some "1") bs1' ++ traverseForest (some "2") bs2'))
      ⟨⟨mkRoot bs1' bs2', n'⟩, [], baseFolderMapping, []⟩ =
      ⟨⟨mkRoot bs1' bs2', n'⟩, [], baseFolderMapping, []⟩ := by
    refine removeBookmarksPass_fixed _ _ _ (fun p hp => ?_)
    obtain ⟨b, hbmem, hbt, hbu, hp2⟩ := mem_buildUrlMap _ p hp
    rw [hp2]
    have hit : ∃ it, it ∈ filterSystem R ∧ b.url = it.url := by
      rcases List.mem_append.mp hbmem with he | he
      · obtain ⟨it, hitmem, _, _, hurl, _, _⟩ := forall₂_mem_left hcorr1 b he
        exact ⟨it, (mem_sortByDate it _).mp (List.mem_of_mem_filter hitmem), hurl⟩
      · obtain ⟨it, hitmem, _, _, hurl, _, _⟩ := forall₂_mem_left hcorr2 b he
        exact ⟨it, (mem_sortByDate it _).mp (List.mem_of_mem_filter hitmem), hurl⟩
    obtain ⟨it, hitF, hurl⟩ := hit
    have hitu : truthyS it.url = true := by rw [← hurl]; exact hbu
    have hkeq : b.url.getD "" = it.url.getD "" := by rw [hurl]
    rw [hkeq]
    exact mapHas_buildUrlMap_of_mem (filterSystem R) it hitF (hbF it hitF) hitu
  rw [hrbFix]
  have hfmapE : buildFolderMap
      (traverseForest (some "1") bs1' ++ traverseForest (some "2") bs2') = [] :=
    buildFolderMap_no_folders _ (fun e he => by rw [(hEprops e he).1]; simp)
  rw [hfmapE]
  have hrfFix : removeFoldersPass (buildFolderMap (filterSystem R)) []
      ⟨⟨mkRoot bs1' bs2', n'⟩, [], baseFolderMapping, []⟩ =
      ⟨⟨mkRoot bs1' bs2', n'⟩, [], baseFolderMapping, []⟩ := rfl
  rw [hrfFix]
  have hmatch : ∀ item ∈ sortByDate (filterSystem R), truthyS item.url = true →
      ∃ e, mapGet (buildUrlMap
          (traverseForest (some "1") bs1' ++ traverseForest (some "2") bs2'))
          (item.url.getD "") = some e ∧ e.title = jsOr item.title "" ∧
        e.parentId = some (resolveParentChromeId baseFolderMapping item.parentId) := by
    intro item hitem htruthy
    rcases resolveParentChromeId_base_cases item.parentId with hpc | hpc
    · have hmemF : item ∈ pcFilter "1" (sortByDate (filterSystem R)) :=
        List.mem_filter.mpr ⟨hitem, by rw [htruthy, hpc]; rfl⟩
      obtain ⟨e, heE1, hety, hetitle, heurl, hepar, hetru⟩ :=
        forall₂_mem_right hcorr1 item hmemF
      have heE : e ∈ traverseForest (some "1") bs1' ++ traverseForest (some "2") bs2' :=
        List.mem_append_left _ heE1
      have hkey : e.url.getD "" = item.url.getD "" := by rw [heurl]
      have huniq : ∀ b ∈ traverseForest (some "1") bs1' ++ traverseForest (some "2") bs2',
          b.type = NodeType.bookmark → truthyS b.url = true →
          b.url.getD "" = item.url.getD "" → b = e := by
        intro b hbmem _ _ hbk
        exact List.inj_on_of_nodup_map hkeys hbmem heE (by rw [hbk, hkey])
      exact ⟨e, mapGet_urlFold_last (item.url.getD "") e _ [] huniq
        (Or.inr ⟨e, heE, hety, hetru, hkey⟩), hetitle, by rw [hepar, hpc]⟩
    · have hmemF : item ∈ pcFilter "2" (sortByDate (filterSystem R)) :=
        List.mem_filter.mpr ⟨hitem, by rw [htruthy, hpc]; rfl⟩
      obtain ⟨e, heE2, hety, hetitle, heurl, hepar, hetru⟩ :=
        forall₂_mem_right hcorr2 item hmemF
      have heE : e ∈ traverseForest (some "1") bs1' ++ traverseForest (some "2") bs2' :=
        List.mem_append_right _ heE2
      have hkey : e.url.getD "" = item.url.getD "" := by rw [heurl]
      have huniq : ∀ b ∈ traverseForest (some "1") bs1' ++ traverseForest (some "2") bs2',
          b.type = NodeType.bookmark → truthyS b.url = true →
          b.url.getD "" = item.url.getD "" → b = e := by
        intro b hbmem _ _ hbk
        exact List.inj_on_of_nodup_map hkeys hbmem heE (by rw [hbk, hkey])
      exact ⟨e, mapGet_urlFold_last (item.url.getD "") e _ [] huniq
        (Or.inr ⟨e, heE, hety, hetru, hkey⟩), hetitle, by rw [hepar, hpc]⟩
  have hloop : (sortByDate (filterSystem R)).foldl
      (fullSyncItem (buildNodeMap (filterSystem R))
        (traverseForest (some "1") bs1' ++ traverseForest (some "2") bs2')
        (buildUrlMap (traverseForest (some "1") bs1' ++ traverseForest (some "2") bs2'))
        ((filterSystem R).length + 2))
      ⟨⟨mkRoot bs1' bs2', n'⟩, [], baseFolderMapping, []⟩ =
      ⟨⟨mkRoot bs1' bs2', n'⟩, [], baseFolderMapping, []⟩ :=
    run2Loop_fixed (buildNodeMap (filterSystem R)) _ _ ((filterSystem R).length + 1)
      (sortByDate (filterSystem R)) hnmF hsorted_b _ rfl hmatch
  rw [hloop]

/-- C1 witness remote set: two bookmarks with distinct urls, one parented
at the fixed root and one unparented. -/
def c1wRemote : List BookmarkNode :=
  [mkBm "b1" "https://x.test" "Site" (some "1") 10, mkBm "b2" "https://y.test" "Y" none 5]

/-- C1 witness: the amended theorem at the concrete folder-free remote
set; the second run issues no call. -/
theorem C1_witness :
    (fullSync (some "t") { ok := true, body := some (some c1wRemote) }
      (fullSync (some "t") { ok := true, body := some (some c1wRemote) }
        initialChrome).1).2 = [] :=
  C1_amended (some "t") c1wRemote (by decide) (by decide)

end SMB
